import Mathlib

/-!
# ObjParser: the OBJ reader of `src/model/parser/file_parser.cc`

A shallow embedding of `s21::ObjParser` and proofs about it.

Modelling conventions.

* A file is `Option (List Char)`: `none` is a path that cannot be opened,
  `some content` the characters of an openable file (one `Char` per byte).
* The parser object is the record `ObjParser`; every member function takes the
  object and returns the updated object next to its result.
* `std::stoi` throws `std::invalid_argument` on a token without digits and the
  file catches only `std::out_of_range`; a call therefore ends in an `Outcome`:
  it returns a `Status`, or it is left by the exception, the object staying as
  it was when the exception was thrown.
* A finite `double` is a rational number, so coordinates are `ℚ`; rounding is
  not modelled.  The stream extraction `iss >> x` for a `double` and the
  function that the unqualified call `abs(x)` of `ParseVertex` resolves to are
  the two fields of `StdLib`, and every definition is stated for an arbitrary
  `StdLib`.  Lines 98 to 100 write `abs(x)` where line 122 writes `std::abs`;
  with the headers that `file_parser.cc` includes, g++ with libstdc++ resolves
  the call to `int abs(int)`, which truncates its argument to `int` first
  (`intAbsLib`); where the floating overloads are in the global namespace it is
  the absolute value (`decimalLib`).  Both read decimal literals and serve to
  evaluate the parser on concrete files.
* `unsigned` is 32 bits wide: a `long` stored in the scratch buffer is reduced
  modulo `2^32` (`toUnsigned`).  `std::stoi` yields an `int` of 32 bits.
* `reserve` changes capacities only, which are not part of the model.
-/

namespace s21

/-! ## Data model -/

/-- Modelled from the spec: the enumeration `Status` is declared in
`file_parser.h`, which is not among the sources; these are the four
enumerators that `file_parser.cc` uses. -/
inductive Status
  | kOk
  | kErrorFileMissing
  | kErrorFileEmpty
  | kErrorIncorrectFile
  deriving DecidableEq, Repr

/-- How a call ends: by returning a status, or by the `std::invalid_argument`
that `std::stoi` throws and that no handler in the file catches. -/
inductive Outcome
  | returned (status : Status)
  | invalid_argument
  deriving DecidableEq, Repr

/-- Modelled from the spec: the class `ObjParser` is declared in
`file_parser.h`, which is not among the sources.  The data members are the
ones `file_parser.cc` uses: `vectors_set_` (a `std::set` of pairs, kept here as
a list searched by membership), `vertices_` (`std::vector<double>`), `edges_`
(`std::vector<unsigned>`), the running count `vertices_count_` and the three
per-axis maxima. -/
structure ObjParser where
  vectors_set_ : List (Nat × Nat)
  vertices_ : List ℚ
  edges_ : List Nat
  vertices_count_ : Nat
  x_coef_ : ℚ
  y_coef_ : ℚ
  z_coef_ : ℚ
  deriving DecidableEq

/-- The library operations the parser calls whose behaviour the repository does
not fix: `extract_double rest` is `iss >> x` on a stream whose unread characters
are `rest` (`none` when the extraction fails, otherwise the value and the
characters left unread), and `abs` is the function the unqualified call
`abs(x)` of `ParseVertex` resolves to: `int abs(int)` after a conversion of the
argument to `int`, or the floating overload, as the headers in scope decide. -/
structure StdLib where
  extract_double : List Char → Option (ℚ × List Char)
  abs : ℚ → ℚ

/-! ## Streams and tokens -/

/-- The whitespace of `std::isspace` in the C locale. -/
def isspace (c : Char) : Bool :=
  c = ' ' || c = '\t' || c = '\n' || c = '\x0b' || c = '\x0c' || c = '\r'

/-- Loop of `std::getline` over a whole stream; `cur` is the line read so far,
in reverse.  A last line without a newline is delivered when it is not empty. -/
def getlinesAux (cur : List Char) : List Char → List (List Char)
  | [] => if cur = [] then [] else [cur.reverse]
  | c :: cs => if c = '\n' then cur.reverse :: getlinesAux [] cs else getlinesAux (c :: cur) cs

/-- The lines that `while (std::getline(file, current_line))` delivers. -/
def getlines (content : List Char) : List (List Char) := getlinesAux [] content

/-- Loop of `while (iss >> str)` for a `std::string`; `cur` is the token read so
far, in reverse. -/
def tokensAux (cur : List Char) : List Char → List (List Char)
  | [] => if cur = [] then [] else [cur.reverse]
  | c :: cs =>
    if isspace c then
      if cur = [] then tokensAux [] cs else cur.reverse :: tokensAux [] cs
    else tokensAux (c :: cur) cs

/-- The whitespace-delimited tokens of a string, in order. -/
def tokens (str : List Char) : List (List Char) := tokensAux [] str

/-- The string `type` after `iss >> type`: the first token, or the empty string
when there is none. -/
def firstToken (line : List Char) : List Char := (tokens line).headD []

/-- Result of `std::stoi`. -/
inductive StoiResult
  | value (n : Int)
  | invalid_argument
  | out_of_range
  deriving DecidableEq, Repr

/-- Value of a run of decimal digits. -/
def digitsValue (ds : List Char) : Nat := ds.foldl (fun a c => 10 * a + (c.toNat - 48)) 0

/-- Sign and remainder of a numeral. -/
def splitSign : List Char → Bool × List Char
  | '-' :: r => (true, r)
  | '+' :: r => (false, r)
  | r => (false, r)

/-- The function `std::stoi(str)` in base 10: leading whitespace, an optional
sign, then the longest run of digits; what follows the digits is ignored.
Without a digit it throws `std::invalid_argument`, and a value outside `int`
throws `std::out_of_range`. -/
def stoi (str : List Char) : StoiResult :=
  let body := splitSign (str.dropWhile isspace)
  let ds := body.2.takeWhile Char.isDigit
  if ds = [] then StoiResult.invalid_argument
  else
    let v : Int := if body.1 then -(digitsValue ds : Int) else (digitsValue ds : Int)
    if v < -2147483648 ∨ 2147483647 < v then StoiResult.out_of_range else StoiResult.value v

/-- Conversion of a `long` to `unsigned`. -/
def toUnsigned (i : Int) : Nat := (i % 4294967296).toNat

/-! ## The member functions -/

/-- The function `ObjParser::ClearData`. -/
def ClearData (_s : ObjParser) : ObjParser :=
  { vectors_set_ := [], vertices_ := [], edges_ := [], vertices_count_ := 0,
    x_coef_ := -10, y_coef_ := -10, z_coef_ := -10 }

/-- The function `ObjParser::GetVertex`. -/
def GetVertex (s : ObjParser) : List ℚ := s.vertices_

/-- The function `ObjParser::GetEdges`. -/
def GetEdges (s : ObjParser) : List Nat := s.edges_

/-- The function `ObjParser::GetNormalizeCoef`, over exact arithmetic. -/
def GetNormalizeCoef (s : ObjParser) : ℚ := (s.x_coef_ + s.y_coef_ + s.z_coef_) / 3

/-- One pass of the loop body of `ReserveData`; `acc` is
`(vertex_count, edge_count)`. -/
def ReserveLine (acc : Nat × Nat) (current_line : List Char) : Nat × Nat :=
  if current_line.length ≤ 2 then acc
  else if firstToken current_line = ['v'] then (acc.1 + 3, acc.2)
  else if firstToken current_line = ['f'] then
    (acc.1, (tokens (current_line.drop 2)).foldl (fun edge_count _ => edge_count + 2) acc.2)
  else acc

/-- The counters `(vertex_count, edge_count)` of `ReserveData` after its loop. -/
def ReserveCounts (lines : List (List Char)) : Nat × Nat := lines.foldl ReserveLine (0, 0)

/-- The function `ObjParser::ReserveData` on the lines of the file. -/
def ReserveData (lines : List (List Char)) : Status :=
  if 0 < (ReserveCounts lines).1 ∧ 0 < (ReserveCounts lines).2 then Status.kOk
  else Status.kErrorFileEmpty

/-- One pass of the loop body of `InsertUniqueVector`, on the pair `(a, b)`. -/
def InsertPair (s : ObjParser) (a b : Nat) : ObjParser :=
  if (a, b) ∉ s.vectors_set_ ∧ (b, a) ∉ s.vectors_set_ then
    { s with edges_ := s.edges_ ++ [a, b], vectors_set_ := (a, b) :: s.vectors_set_ }
  else s

/-- The loop of `InsertUniqueVector` on a buffer of even length. -/
def InsertLoop (s : ObjParser) : List Nat → ObjParser
  | a :: b :: rest => InsertLoop (InsertPair s a b) rest
  | _ => s

/-- The function `ObjParser::InsertUniqueVector`: the loop runs only when
`data.size() % 2 == 0`. -/
def InsertUniqueVector (s : ObjParser) (data : List Nat) : ObjParser :=
  if data.length % 2 = 0 then InsertLoop s data else s

/-- The expression `iss >> x >> y >> z` of `ParseVertex`. -/
def extract3 (lib : StdLib) (data : List Char) : Option (ℚ × ℚ × ℚ) :=
  match lib.extract_double data with
  | none => none
  | some (x, r1) =>
    match lib.extract_double r1 with
    | none => none
    | some (y, r2) =>
      match lib.extract_double r2 with
      | none => none
      | some (z, _) => some (x, y, z)

/-- The function `ObjParser::ParseVertex`. -/
def ParseVertex (lib : StdLib) (s : ObjParser) (data : List Char) : Status × ObjParser :=
  match extract3 lib data with
  | some (x, y, z) =>
    (Status.kOk,
      { s with
        vertices_ := s.vertices_ ++ [x, y, z]
        x_coef_ := if lib.abs x > s.x_coef_ then lib.abs x else s.x_coef_
        y_coef_ := if lib.abs y > s.y_coef_ then lib.abs y else s.y_coef_
        z_coef_ := if lib.abs z > s.z_coef_ then lib.abs z else s.z_coef_
        vertices_count_ := s.vertices_count_ + 1 })
  | none => (Status.kErrorIncorrectFile, ClearData s)

/-- The local variables of `ParseFace`. -/
structure FaceLocals where
  first_index : Int
  is_first_index : Bool
  faces_buff : List Nat
  deriving DecidableEq

/-- The value read from `first_index` when no token has set it.  The read is of
an uninitialised `long`; the value only ever reaches a buffer of length one,
which `InsertUniqueVector` does not look into. -/
def indeterminate : Int := 0

/-- The locals of `ParseFace` before its loop. -/
def FaceLocals.init : FaceLocals :=
  { first_index := indeterminate, is_first_index := true, faces_buff := [] }

/-- Lines 124 to 127 of `ParseFace`: the index after normalisation. -/
def normalizeIndex (s : ObjParser) (index : Int) : Int :=
  if index < 0 then index + (s.vertices_count_ : Int) else index - 1

/-- Lines 116 to 127 of `ParseFace`: the token `index_str` is converted, checked
against `vertices_.size()` and normalised; the result is the value of `index`
at line 128, or the way the function is left. -/
def ResolveIndex (s : ObjParser) (index_str : List Char) : Except Outcome Int :=
  match stoi index_str with
  | StoiResult.invalid_argument => Except.error Outcome.invalid_argument
  | StoiResult.out_of_range => Except.error (Outcome.returned Status.kErrorIncorrectFile)
  | StoiResult.value index =>
    if index.natAbs > s.vertices_.length then
      Except.error (Outcome.returned Status.kErrorIncorrectFile)
    else Except.ok (normalizeIndex s index)

/-- Lines 128 to 135 of `ParseFace`: the resolved `index` is pushed once when
it is the first of the face and twice otherwise. -/
def PushIndex (loc : FaceLocals) (index : Int) : FaceLocals :=
  if loc.is_first_index then
    { first_index := index, is_first_index := false,
      faces_buff := loc.faces_buff ++ [toUnsigned index] }
  else
    { loc with faces_buff := loc.faces_buff ++ [toUnsigned index, toUnsigned index] }

/-- One pass of the loop body of `ParseFace` on the token `index_str`: the
updated locals, or the way the function is left. -/
def FaceStep (s : ObjParser) (loc : FaceLocals) (index_str : List Char) :
    Except Outcome FaceLocals :=
  match ResolveIndex s index_str with
  | Except.error e => Except.error e
  | Except.ok index => Except.ok (PushIndex loc index)

/-- The loop `while (iss >> index_str)` of `ParseFace`. -/
def FaceLoop (s : ObjParser) : FaceLocals → List (List Char) → Except Outcome FaceLocals
  | loc, [] => Except.ok loc
  | loc, index_str :: rest =>
    match FaceStep s loc index_str with
    | Except.error e => Except.error e
    | Except.ok loc1 => FaceLoop s loc1 rest

/-- The scratch buffer `faces_buff` as `ParseFace` hands it to
`InsertUniqueVector`, when the loop is left normally. -/
def FaceBuffer (s : ObjParser) (data : List Char) : Except Outcome (List Nat) :=
  match FaceLoop s FaceLocals.init (tokens data) with
  | Except.error e => Except.error e
  | Except.ok loc => Except.ok (loc.faces_buff ++ [toUnsigned loc.first_index])

/-- The function `ObjParser::ParseFace`. -/
def ParseFace (s : ObjParser) (data : List Char) : Outcome × ObjParser :=
  match FaceBuffer s data with
  | Except.error e => (e, s)
  | Except.ok faces_buff => (Outcome.returned Status.kOk, InsertUniqueVector s faces_buff)

/-- The function `ObjParser::ParseLine`. -/
def ParseLine (lib : StdLib) (s : ObjParser) (line : List Char) : Outcome × ObjParser :=
  if line.length > 2 then
    if firstToken line = ['v'] then
      (Outcome.returned (ParseVertex lib s (line.drop 2)).1, (ParseVertex lib s (line.drop 2)).2)
    else if firstToken line = ['f'] then ParseFace s (line.drop 2)
    else (Outcome.returned Status.kOk, s)
  else (Outcome.returned Status.kOk, s)

/-- The loop `while (std::getline(file, current_line) && status == kOk)` of
`ParseFile`, entered with `status == kOk`. -/
def Ingest (lib : StdLib) : ObjParser → List (List Char) → Outcome × ObjParser
  | s, [] => (Outcome.returned Status.kOk, s)
  | s, current_line :: rest =>
    match ParseLine lib s current_line with
    | (Outcome.returned Status.kOk, s1) => Ingest lib s1 rest
    | r => r

/-- Lines 24 to 28 of `ParseFile`: the dedup set is dropped, the emptiness check
replaces the status, and a failure clears the object. -/
def Finish (status : Status) (s : ObjParser) : Outcome × ObjParser :=
  let s1 := { s with vectors_set_ := [] }
  let status1 := if s1.vertices_ = [] ∨ s1.edges_ = [] then Status.kErrorFileEmpty else status
  if status1 ≠ Status.kOk then (Outcome.returned status1, ClearData s1)
  else (Outcome.returned status1, s1)

/-- The function `ObjParser::ParseFile`; `file` is what the path names. -/
def ParseFile (lib : StdLib) (s : ObjParser) (file : Option (List Char)) : Outcome × ObjParser :=
  match file with
  | none => (Outcome.returned Status.kErrorFileMissing, ClearData s)
  | some content =>
    match ReserveData (getlines content) with
    | Status.kOk =>
      match Ingest lib (ClearData s) (getlines content) with
      | (Outcome.invalid_argument, s1) => (Outcome.invalid_argument, s1)
      | (Outcome.returned status, s1) => Finish status s1
    | status => Finish status (ClearData s)

/-! ## A concrete library, for evaluation -/

/-- Exponent part of a decimal literal: the power of ten and the rest, or `none`
when `e` is not followed by a digit. -/
def readExponent (cs : List Char) : Option (Int × List Char) :=
  let body := splitSign cs
  let ds := body.2.takeWhile Char.isDigit
  if ds = [] then none
  else some (if body.1 then -(digitsValue ds : Int) else (digitsValue ds : Int),
    body.2.dropWhile Char.isDigit)

/-- Extraction of a decimal literal (sign, digits, fraction, exponent) after
leading whitespace, with its exact value. -/
def extractDecimal (rest : List Char) : Option (ℚ × List Char) :=
  let body := splitSign (rest.dropWhile isspace)
  let ip := body.2.takeWhile Char.isDigit
  let r1 := body.2.dropWhile Char.isDigit
  let fp := match r1 with
    | '.' :: r => r.takeWhile Char.isDigit
    | _ => []
  let r2 := match r1 with
    | '.' :: r => r.dropWhile Char.isDigit
    | _ => r1
  if ip = [] ∧ fp = [] then none
  else
    let m : ℚ := mkRat (digitsValue (ip ++ fp)) (10 ^ fp.length)
    let v : ℚ := if body.1 then -m else m
    match r2 with
    | 'e' :: r => (readExponent r).map (fun p => (v * (10 : ℚ) ^ p.1, p.2))
    | 'E' :: r => (readExponent r).map (fun p => (v * (10 : ℚ) ^ p.1, p.2))
    | _ => some (v, r2)

/-- A library that reads decimal literals and takes `abs` to be the absolute
value. -/
def decimalLib : StdLib := { extract_double := extractDecimal, abs := fun x => |x| }

/-! ## Notions used in the statements -/

/-- The edge list read two at a time. -/
def pairsOf : List Nat → List (Nat × Nat)
  | a :: b :: rest => (a, b) :: pairsOf rest
  | _ => []

/-- Two pairs that are not the same undirected edge. -/
def Apart (p q : Nat × Nat) : Prop := p ≠ q ∧ p ≠ (q.2, q.1)

/-- The state invariant of ingestion: the edge list has even length, the dedup
set holds exactly the pairs of the edge list, and no two pairs of the edge list
are the same undirected edge. -/
structure EdgesInv (s : ObjParser) : Prop where
  even : s.edges_.length % 2 = 0
  set_eq : ∀ p, p ∈ s.vectors_set_ ↔ p ∈ pairsOf s.edges_
  apart : (pairsOf s.edges_).Pairwise Apart

/-- The edge list of a state holds no undirected edge twice. -/
def EdgesApart (s : ObjParser) : Prop := (pairsOf s.edges_).Pairwise Apart

/-- The vertex count and the vertex list agree: three coordinates a vertex. -/
def CountInv (s : ObjParser) : Prop := s.vertices_.length = 3 * s.vertices_count_

/-- A state reached during ingestion: the loop of `ParseFile`, started on a
cleared object, has taken some lines without an error. -/
def Reached (lib : StdLib) (s : ObjParser) : Prop :=
  ∃ (s0 : ObjParser) (lines : List (List Char)),
    Ingest lib (ClearData s0) lines = (Outcome.returned Status.kOk, s)

/-- A vertex line: longer than two characters, first token `v`. -/
def isVertexLine (line : List Char) : Bool := 2 < line.length && firstToken line = ['v']

/-- A face line: longer than two characters, first token `f`. -/
def isFaceLine (line : List Char) : Bool := 2 < line.length && firstToken line = ['f']

/-- The index tokens of a face line: the tokens of the line after its first
two characters, which is the fragment `ReserveData` counts in and `ParseLine`
hands to `ParseFace`. -/
def faceTokens (line : List Char) : List (List Char) := tokens (line.drop 2)

/-- A token that is a valid integer: an optional sign, then one or more digits
and nothing else. -/
def isIntegerToken (tok : List Char) : Bool :=
  (splitSign tok).2 ≠ [] && (splitSign tok).2.all Char.isDigit

/-- Every index token of every face line starts with an integer, so that
`std::stoi` does not throw `std::invalid_argument` on it. -/
def FaceTokensNumeric (lines : List (List Char)) : Prop :=
  ∀ line ∈ lines, isFaceLine line = true →
    ∀ tok ∈ faceTokens line, stoi tok ≠ StoiResult.invalid_argument

instance (lines : List (List Char)) : Decidable (FaceTokensNumeric lines) := by
  unfold FaceTokensNumeric
  infer_instance

/-- The vertex list read three at a time: the parsed vertices. -/
def triplesOf : List ℚ → List (ℚ × ℚ × ℚ)
  | x :: y :: z :: rest => (x, y, z) :: triplesOf rest
  | _ => []

/-- The number `m` is the maximum of the list `l`. -/
def IsMaxOf (m : ℚ) (l : List ℚ) : Prop := m ∈ l ∧ ∀ x ∈ l, x ≤ m

/-- The value of a per-axis coefficient after `ParseVertex` has seen the
coordinates `l` of that axis in turn, starting from `m`. -/
def runningMax (abs : ℚ → ℚ) (m : ℚ) (l : List ℚ) : ℚ :=
  l.foldl (fun c x => if abs x > c then abs x else c) m

/-- The coefficient invariant of ingestion: the vertex list holds whole
vertices and each per-axis coefficient is the running maximum, from the
sentinel -10, over that axis of the vertices parsed so far. -/
structure CoefInv (lib : StdLib) (s : ObjParser) : Prop where
  whole : s.vertices_.length % 3 = 0
  x_eq : s.x_coef_ = runningMax lib.abs (-10) ((triplesOf s.vertices_).map (fun t => t.1))
  y_eq : s.y_coef_ = runningMax lib.abs (-10) ((triplesOf s.vertices_).map (fun t => t.2.1))
  z_eq : s.z_coef_ = runningMax lib.abs (-10) ((triplesOf s.vertices_).map (fun t => t.2.2))

/-- The function `ParseFile` with the `ReserveData` step removed: clear the
state, ingest every line until the first error, apply the final emptiness
check, clear on failure. -/
def ParseFileNoReserve (lib : StdLib) (s : ObjParser) (file : Option (List Char)) :
    Outcome × ObjParser :=
  match file with
  | none => (Outcome.returned Status.kErrorFileMissing, ClearData s)
  | some content =>
    match Ingest lib (ClearData s) (getlines content) with
    | (Outcome.invalid_argument, s1) => (Outcome.invalid_argument, s1)
    | (Outcome.returned status, s1) => Finish status s1

/-! ## Concrete inputs -/

/-- A parser object left by some earlier use. -/
def usedParser : ObjParser :=
  { vectors_set_ := [(7, 7)], vertices_ := [1, 2, 3], edges_ := [5, 5, 5, 5],
    vertices_count_ := 9, x_coef_ := 4, y_coef_ := 4, z_coef_ := 4 }

/-- Four vertices and the two faces `f 1 2 3`, `f 1 3 4` that share an edge. -/
def sharedEdgeFile : List Char :=
  "v 0 0 0\nv 1 0 0\nv 1 1 0\nv 0 1 0\nf 1 2 3\nf 1 3 4\n".toList

/-- Two vertices, then a face whose second index is out of range: ingestion
builds a vertex list before it fails. -/
def lateFailureFile : List Char := "v 0 0 0\nv 1 0 0\nf 1 9\n".toList

/-- A malformed vertex line followed by a face line. -/
def malformedVertexFile : List Char := "v 1.0 abc 2.0\nf 1 2 3".toList

/-- One vertex, then a face with the index 5, larger than the three coordinate
values stored; no edge exists when the face fails. -/
def malformedFaceFile : List Char := "v 0 0 0\nf 5 1".toList

/-- Three vertices and a triangle, then a face with the index 10, larger than
the nine coordinate values stored; three edges exist when the face fails. -/
def malformedFaceAfterEdgesFile : List Char :=
  "v 0 0 0\nv 1 0 0\nv 0 1 0\nf 1 2 3\nf 10 1".toList

/-- A file of comment and ignored lines only. -/
def commentsOnlyFile : List Char := "# cube\nvn 0 0 1\n\ng all\n".toList

/-- A file with vertices but no face. -/
def verticesOnlyFile : List Char := "v 0 0 0\nv 1 0 0\n".toList

/-- A file with a face but no vertex. -/
def facesOnlyFile : List Char := "f 1 2 3\n".toList

/-- One vertex and a face that names it as `-3`. -/
def negativeWrapFile : List Char := "v 0 0 0\nf -3 1".toList

/-- The state during ingestion after the single vertex line `v 0 0 0`. -/
def oneVertex : ObjParser :=
  { vectors_set_ := [], vertices_ := [0, 0, 0], edges_ := [], vertices_count_ := 1,
    x_coef_ := 0, y_coef_ := 0, z_coef_ := 0 }

/-- The state during ingestion after the three vertex lines `v 0 0 0`,
`v 1 0 0`, `v 0 1 0`. -/
def threeVertices : ObjParser :=
  { vectors_set_ := [], vertices_ := [0, 0, 0, 1, 0, 0, 0, 1, 0], edges_ := [],
    vertices_count_ := 3, x_coef_ := 1, y_coef_ := 1, z_coef_ := 0 }

/-- The state during ingestion of `sharedEdgeFile` after its first face. -/
def afterTriangle : ObjParser :=
  { vectors_set_ := [(2, 0), (1, 2), (0, 1)],
    vertices_ := [0, 0, 0, 1, 0, 0, 1, 1, 0, 0, 1, 0],
    edges_ := [0, 1, 1, 2, 2, 0], vertices_count_ := 4, x_coef_ := 1, y_coef_ := 1, z_coef_ := 0 }

/-- The four-line file `v 0 0 0`, `v 1 0 0`, `v 0 1 0`, `f 1 2 3`. -/
def triangleFile : List Char := "v 0 0 0\nv 1 0 0\nv 0 1 0\nf 1 2 3".toList

/-- Two vertices with negative coordinates, and an edge. -/
def scaledFile : List Char := "v -3 1 0\nv 2 -4 0\nf 1 2\n".toList

/-- One vertex and a face with the index 3, which names no vertex. -/
def beyondVerticesFile : List Char := "v 0 0 0\nf 3 1".toList

/-- One vertex and a face with the index 0. -/
def zeroIndexFile : List Char := "v 0 0 0\nf 0 1".toList

/-- A face whose token has no digit, in a file without a vertex. -/
def strayTokenFile : List Char := "f x\n".toList

/-- The library of `decimalLib` with `abs` the function `int abs(int)`, which is
what the unqualified call `abs(x)` resolves to under g++ with libstdc++: the
`double` argument is converted to `int`, that is truncated toward zero, and the
result is the magnitude of that integer (arguments within the range of `int`). -/
def intAbsLib : StdLib :=
  { extract_double := extractDecimal, abs := fun x => ((Int.tdiv x.num x.den).natAbs : ℚ) }

/-- Two vertices whose coordinates lie strictly between -1 and 1, and an edge. -/
def halfFile : List Char := "v 0.5 0 0\nv -0.5 0 0\nf 1 2\n".toList

/-! ## The dedup invariant -/

theorem pairsOf_append_pair (e : List Nat) (a b : Nat) (h : e.length % 2 = 0) :
    pairsOf (e ++ [a, b]) = pairsOf e ++ [(a, b)] := by
  induction e using pairsOf.induct with
  | case1 x y rest ih =>
    have h2 : rest.length % 2 = 0 := by simp at h; omega
    simp [pairsOf, ih h2]
  | case2 l hl =>
    match l, hl, h with
    | [], _, _ => simp [pairsOf]
    | [c], _, h => simp at h
    | x :: y :: r, hl, _ => exact absurd rfl (hl x y r)

theorem pairsOf_getElem? (e : List Nat) (i : Nat) (h : 2 * i + 1 < e.length) :
    (pairsOf e)[i]? = some (e.getD (2 * i) 0, e.getD (2 * i + 1) 0) := by
  induction e using pairsOf.induct generalizing i with
  | case1 x y rest ih =>
    cases i with
    | zero => simp [pairsOf]
    | succ k =>
      have hk : 2 * k + 1 < rest.length := by simp at h; omega
      have e1 : 2 * (k + 1) = (2 * k) + 1 + 1 := by ring
      have e2 : 2 * (k + 1) + 1 = (2 * k + 1) + 1 + 1 := by ring
      simp only [pairsOf, List.getElem?_cons_succ, ih k hk, e1, e2, List.getD_cons_succ]
  | case2 l hl =>
    match l, hl, h with
    | [], _, h => simp at h
    | [c], _, h => simp at h
    | x :: y :: r, hl, _ => exact absurd rfl (hl x y r)

theorem pairsOf_length (e : List Nat) : (pairsOf e).length = e.length / 2 := by
  induction e using pairsOf.induct with
  | case1 x y rest ih => simp [pairsOf, ih]; omega
  | case2 l hl =>
    match l, hl with
    | [], _ => simp [pairsOf]
    | [c], _ => simp [pairsOf]
    | x :: y :: r, hl => exact absurd rfl (hl x y r)

theorem EdgesInv_ClearData (s : ObjParser) : EdgesInv (ClearData s) :=
  ⟨by simp [ClearData], by simp [ClearData, pairsOf], by simp [ClearData, pairsOf]⟩

theorem EdgesInv_InsertPair (s : ObjParser) (a b : Nat) (h : EdgesInv s) :
    EdgesInv (InsertPair s a b) := by
  unfold InsertPair
  split
  · rename_i hn
    refine ⟨?_, ?_, ?_⟩
    · have := h.even
      simp; omega
    · intro p
      simp only [pairsOf_append_pair _ _ _ h.even, List.mem_cons, List.mem_append, h.set_eq p,
        List.mem_singleton, List.not_mem_nil, or_false]
      tauto
    · simp only [pairsOf_append_pair _ _ _ h.even]
      rw [List.pairwise_append]
      refine ⟨h.apart, by simp, ?_⟩
      intro p hp q hq
      simp only [List.mem_singleton] at hq
      subst hq
      have hp2 := (h.set_eq p).2 hp
      constructor
      · rintro rfl; exact hn.1 hp2
      · rintro rfl; exact hn.2 hp2
  · exact h

theorem EdgesInv_InsertLoop (data : List Nat) : ∀ s : ObjParser, EdgesInv s →
    EdgesInv (InsertLoop s data) := by
  induction data using pairsOf.induct with
  | case1 a b rest ih => intro s h; simpa [InsertLoop] using ih _ (EdgesInv_InsertPair s a b h)
  | case2 l hl =>
    intro s h
    match l, hl with
    | [], _ => simpa [InsertLoop] using h
    | [c], _ => simpa [InsertLoop] using h
    | x :: y :: r, hl => exact absurd rfl (hl x y r)

theorem EdgesInv_InsertUniqueVector (s : ObjParser) (data : List Nat) (h : EdgesInv s) :
    EdgesInv (InsertUniqueVector s data) := by
  unfold InsertUniqueVector
  split
  · exact EdgesInv_InsertLoop data s h
  · exact h

theorem EdgesInv_ParseFace (s : ObjParser) (data : List Char) (h : EdgesInv s) :
    EdgesInv (ParseFace s data).2 := by
  unfold ParseFace
  split
  · exact h
  · exact EdgesInv_InsertUniqueVector s _ h

theorem EdgesInv_ParseVertex (lib : StdLib) (s : ObjParser) (data : List Char)
    (h : EdgesInv s) : EdgesInv (ParseVertex lib s data).2 := by
  unfold ParseVertex
  split
  · exact ⟨h.even, h.set_eq, h.apart⟩
  · exact EdgesInv_ClearData s

theorem EdgesInv_ParseLine (lib : StdLib) (s : ObjParser) (line : List Char)
    (h : EdgesInv s) : EdgesInv (ParseLine lib s line).2 := by
  unfold ParseLine
  split
  · split
    · exact EdgesInv_ParseVertex lib s _ h
    · split
      · exact EdgesInv_ParseFace s _ h
      · exact h
  · exact h

theorem EdgesInv_Ingest (lib : StdLib) (lines : List (List Char)) :
    ∀ s : ObjParser, EdgesInv s → EdgesInv (Ingest lib s lines).2 := by
  induction lines with
  | nil => intro s h; simpa [Ingest] using h
  | cons l rest ih =>
    intro s h
    have hl := EdgesInv_ParseLine lib s l h
    unfold Ingest
    split
    · rename_i s1 heq
      rw [heq] at hl
      exact ih s1 hl
    · exact hl

theorem Finish_cases (status : Status) (s : ObjParser) :
    (Finish status s = (Outcome.returned Status.kOk, { s with vectors_set_ := [] }) ∧
        status = Status.kOk ∧ s.vertices_ ≠ [] ∧ s.edges_ ≠ []) ∨
    (∃ st, st ≠ Status.kOk ∧ Finish status s = (Outcome.returned st, ClearData s) ∧
        ((s.vertices_ = [] ∨ s.edges_ = []) ∧ st = Status.kErrorFileEmpty ∨
          (s.vertices_ ≠ [] ∧ s.edges_ ≠ []) ∧ st = status)) := by
  unfold Finish
  by_cases hv : s.vertices_ = [] ∨ s.edges_ = []
  · right
    exact ⟨Status.kErrorFileEmpty, by decide, by simp [hv, ClearData], Or.inl ⟨hv, rfl⟩⟩
  · have hv2 : s.vertices_ ≠ [] ∧ s.edges_ ≠ [] := by tauto
    by_cases hs : status = Status.kOk
    · left
      simp [hv, hs, hv2]
    · right
      exact ⟨status, hs, by simp [hv, hs, ClearData], Or.inr ⟨hv2, rfl⟩⟩

theorem EdgesApart_Finish (status : Status) (s : ObjParser) (h : EdgesApart s) :
    EdgesApart (Finish status s).2 := by
  rcases Finish_cases status s with ⟨he, -⟩ | ⟨st, -, he, -⟩
  · rw [he]; exact h
  · rw [he]; simp [EdgesApart, ClearData, pairsOf]

theorem EdgesApart_ParseFile (lib : StdLib) (s : ObjParser) (file : Option (List Char)) :
    EdgesApart (ParseFile lib s file).2 := by
  unfold ParseFile
  split
  · simp [EdgesApart, ClearData, pairsOf]
  · rename_i content
    split
    · have hI := EdgesInv_Ingest lib (getlines content) _ (EdgesInv_ClearData s)
      split
      · rename_i s1 heq
        rw [heq] at hI
        exact hI.apart
      · rename_i st s1 heq
        rw [heq] at hI
        exact EdgesApart_Finish _ _ hI.apart
    · exact EdgesApart_Finish _ _ (EdgesInv_ClearData s).apart

theorem Apart_index (e : List Nat) (h : (pairsOf e).Pairwise Apart) (i j : Nat) (hij : i ≠ j)
    (hi : 2 * i + 1 < e.length) (hj : 2 * j + 1 < e.length) :
    (e.getD (2 * i) 0, e.getD (2 * i + 1) 0) ≠ (e.getD (2 * j) 0, e.getD (2 * j + 1) 0) ∧
    (e.getD (2 * i) 0, e.getD (2 * i + 1) 0) ≠ (e.getD (2 * j + 1) 0, e.getD (2 * j) 0) := by
  have gi := pairsOf_getElem? e i hi
  have gj := pairsOf_getElem? e j hj
  have li : i < (pairsOf e).length := by rw [pairsOf_length]; omega
  have lj : j < (pairsOf e).length := by rw [pairsOf_length]; omega
  rw [List.getElem?_eq_getElem li] at gi
  rw [List.getElem?_eq_getElem lj] at gj
  simp only [Option.some.injEq] at gi gj
  rcases Nat.lt_or_gt_of_ne hij with hlt | hgt
  · have := List.pairwise_iff_getElem.1 h i j li lj hlt
    rw [gi, gj] at this
    exact this
  · have := List.pairwise_iff_getElem.1 h j i lj li hgt
    rw [gi, gj] at this
    obtain ⟨h1, h2⟩ := this
    constructor
    · exact fun hh => h1 hh.symm
    · intro hh
      apply h2
      simp only [Prod.mk.injEq] at hh ⊢
      exact ⟨hh.2.symm, hh.1.symm⟩

/-- C1. After `ParseFile`, whatever the file and the prior state of the parser,
the edge list read as pairs `(edges[2i], edges[2i+1])` holds no undirected edge
twice: two distinct pair positions never hold equal pairs, nor a pair and its
reverse. -/
theorem ParseFile_edges_unique (lib : StdLib) (s : ObjParser) (file : Option (List Char))
    (i j : Nat) (hij : i ≠ j)
    (hi : 2 * i + 1 < (GetEdges (ParseFile lib s file).2).length)
    (hj : 2 * j + 1 < (GetEdges (ParseFile lib s file).2).length) :
    ((GetEdges (ParseFile lib s file).2).getD (2 * i) 0,
        (GetEdges (ParseFile lib s file).2).getD (2 * i + 1) 0) ≠
      ((GetEdges (ParseFile lib s file).2).getD (2 * j) 0,
        (GetEdges (ParseFile lib s file).2).getD (2 * j + 1) 0) ∧
    ((GetEdges (ParseFile lib s file).2).getD (2 * i) 0,
        (GetEdges (ParseFile lib s file).2).getD (2 * i + 1) 0) ≠
      ((GetEdges (ParseFile lib s file).2).getD (2 * j + 1) 0,
        (GetEdges (ParseFile lib s file).2).getD (2 * j) 0) :=
  Apart_index _ (EdgesApart_ParseFile lib s file) i j hij hi hj

theorem ParseFile_sharedEdgeFile :
    ParseFile decimalLib usedParser (some sharedEdgeFile) =
      (Outcome.returned Status.kOk,
        { vectors_set_ := [], vertices_ := [0, 0, 0, 1, 0, 0, 1, 1, 0, 0, 1, 0],
          edges_ := [0, 1, 1, 2, 2, 0, 2, 3, 3, 0], vertices_count_ := 4,
          x_coef_ := 1, y_coef_ := 1, z_coef_ := 0 }) := by
  decide

/-- The preceding theorem applied to a concrete input. -/
theorem ParseFile_edges_unique_witness :
    (2 : Nat) ≠ 3 ∧
    2 * 2 + 1 < (GetEdges (ParseFile decimalLib usedParser (some sharedEdgeFile)).2).length ∧
    2 * 3 + 1 < (GetEdges (ParseFile decimalLib usedParser (some sharedEdgeFile)).2).length ∧
    ((GetEdges (ParseFile decimalLib usedParser (some sharedEdgeFile)).2).getD (2 * 2) 0,
        (GetEdges (ParseFile decimalLib usedParser (some sharedEdgeFile)).2).getD (2 * 2 + 1) 0) ≠
      ((GetEdges (ParseFile decimalLib usedParser (some sharedEdgeFile)).2).getD (2 * 3 + 1) 0,
        (GetEdges (ParseFile decimalLib usedParser (some sharedEdgeFile)).2).getD (2 * 3) 0) :=
  ⟨by decide, by decide, by decide,
    (ParseFile_edges_unique decimalLib usedParser (some sharedEdgeFile) 2 3 (by decide)
      (by decide) (by decide)).2⟩

/-! ## Status and state after `ParseFile` -/

theorem ParseFile_cases (lib : StdLib) (s : ObjParser) (file : Option (List Char)) :
    (file = none ∧ ParseFile lib s file = (Outcome.returned Status.kErrorFileMissing, ClearData s)) ∨
    (∃ content, file = some content ∧ ReserveData (getlines content) ≠ Status.kOk ∧
      ParseFile lib s file = (Outcome.returned Status.kErrorFileEmpty, ClearData s)) ∨
    (∃ content s1, file = some content ∧ ReserveData (getlines content) = Status.kOk ∧
      Ingest lib (ClearData s) (getlines content) = (Outcome.invalid_argument, s1) ∧
      ParseFile lib s file = (Outcome.invalid_argument, s1)) ∨
    (∃ content status s1, file = some content ∧ ReserveData (getlines content) = Status.kOk ∧
      Ingest lib (ClearData s) (getlines content) = (Outcome.returned status, s1) ∧
      ParseFile lib s file = Finish status s1) := by
  cases file with
  | none => left; exact ⟨rfl, rfl⟩
  | some content =>
    right
    by_cases hr : ReserveData (getlines content) = Status.kOk
    · right
      rcases hI : Ingest lib (ClearData s) (getlines content) with ⟨out, s1⟩
      cases out with
      | invalid_argument =>
        left
        exact ⟨content, s1, rfl, hr, hI, by simp [ParseFile, hr, hI]⟩
      | returned status =>
        right
        exact ⟨content, status, s1, rfl, hr, hI, by simp [ParseFile, hr, hI]⟩
    · left
      refine ⟨content, rfl, hr, ?_⟩
      have hE : ReserveData (getlines content) = Status.kErrorFileEmpty := by
        unfold ReserveData at hr ⊢
        split
        · rename_i h; simp [h] at hr
        · rfl
      simp [ParseFile, hE, Finish, ClearData]

theorem ResolveIndex_invalid (s : ObjParser) (tok : List Char)
    (h : ResolveIndex s tok = Except.error Outcome.invalid_argument) :
    stoi tok = StoiResult.invalid_argument := by
  unfold ResolveIndex at h
  split at h
  · assumption
  · simp at h
  · split at h <;> simp at h

theorem FaceLoop_invalid (s : ObjParser) (toks : List (List Char)) :
    ∀ loc, FaceLoop s loc toks = Except.error Outcome.invalid_argument →
      ∃ tok ∈ toks, stoi tok = StoiResult.invalid_argument := by
  induction toks with
  | nil => intro loc h; simp [FaceLoop] at h
  | cons t rest ih =>
    intro loc h
    unfold FaceLoop at h
    split at h
    · rename_i e he
      simp only [Except.error.injEq] at h
      subst h
      unfold FaceStep at he
      split at he
      · rename_i e2 he2
        simp only [Except.error.injEq] at he
        subst he
        exact ⟨t, List.mem_cons_self _ _, ResolveIndex_invalid s t he2⟩
      · simp at he
    · obtain ⟨tok, hm, ht⟩ := ih _ h
      exact ⟨tok, List.mem_cons_of_mem _ hm, ht⟩

theorem ParseFace_invalid (s : ObjParser) (data : List Char)
    (h : (ParseFace s data).1 = Outcome.invalid_argument) :
    ∃ tok ∈ tokens data, stoi tok = StoiResult.invalid_argument := by
  unfold ParseFace FaceBuffer at h
  split at h
  · rename_i e he
    simp only at h
    subst h
    split at he
    · rename_i e2 he2
      simp only [Except.error.injEq] at he
      subst he
      exact FaceLoop_invalid s _ _ he2
    · simp at he
  · simp at h

theorem ParseLine_invalid (lib : StdLib) (s : ObjParser) (line : List Char)
    (h : (ParseLine lib s line).1 = Outcome.invalid_argument) :
    isFaceLine line = true ∧ ∃ tok ∈ faceTokens line, stoi tok = StoiResult.invalid_argument := by
  unfold ParseLine at h
  split at h
  · rename_i hlen
    split at h
    · simp at h
    · split at h
      · rename_i hf
        exact ⟨by simp [isFaceLine, hf]; omega, ParseFace_invalid s _ h⟩
      · simp at h
  · simp at h

theorem Ingest_returns (lib : StdLib) (lines : List (List Char)) :
    ∀ s : ObjParser, FaceTokensNumeric lines → ∃ status, (Ingest lib s lines).1 = Outcome.returned status := by
  induction lines with
  | nil => intro s _; exact ⟨Status.kOk, rfl⟩
  | cons l rest ih =>
    intro s hn
    have hrest : FaceTokensNumeric rest := fun line hl => hn line (List.mem_cons_of_mem _ hl)
    unfold Ingest
    split
    · exact ih _ hrest
    · rename_i r hr
      rcases hP : ParseLine lib s l with ⟨out, s1⟩
      cases out with
      | returned st => exact ⟨st, rfl⟩
      | invalid_argument =>
        exfalso
        have := ParseLine_invalid lib s l (by rw [hP])
        obtain ⟨hf, tok, hm, ht⟩ := this
        exact hn l (List.mem_cons_self _ _) hf tok hm ht

theorem Finish_returns (status : Status) (s : ObjParser) :
    ∃ st, (Finish status s).1 = Outcome.returned st := by
  rcases Finish_cases status s with ⟨he, -⟩ | ⟨st, -, he, -⟩
  · exact ⟨Status.kOk, by rw [he]⟩
  · exact ⟨st, by rw [he]⟩

/-- `ParseFile` returns a status on an unopenable path and on every file whose
face-line tokens all start with an integer. -/
theorem ParseFile_returns (lib : StdLib) (s : ObjParser) (file : Option (List Char))
    (h : ∀ content, file = some content → FaceTokensNumeric (getlines content)) :
    ∃ status, (ParseFile lib s file).1 = Outcome.returned status := by
  rcases ParseFile_cases lib s file with ⟨-, he⟩ | ⟨c, -, -, he⟩ | ⟨c, s1, hc, -, hI, -⟩ |
    ⟨c, st, s1, -, -, -, he⟩
  · exact ⟨_, by rw [he]⟩
  · exact ⟨_, by rw [he]⟩
  · exfalso
    obtain ⟨st, hst⟩ := Ingest_returns lib (getlines c) (ClearData s) (h c hc)
    rw [hI] at hst
    simp at hst
  · rw [he]; exact Finish_returns st s1

/-- C2. Whatever the file (an unopenable path included) and the prior state,
when `ParseFile` returns status `kOk` the vertex list and the edge list are
both non-empty, and when it returns any other status both lists are empty and
the vertex count is 0. -/
theorem ParseFile_status_state (lib : StdLib) (s : ObjParser) (file : Option (List Char))
    (status : Status) (h : (ParseFile lib s file).1 = Outcome.returned status) :
    (status = Status.kOk →
      GetVertex (ParseFile lib s file).2 ≠ [] ∧ GetEdges (ParseFile lib s file).2 ≠ []) ∧
    (status ≠ Status.kOk →
      GetVertex (ParseFile lib s file).2 = [] ∧ GetEdges (ParseFile lib s file).2 = [] ∧
        (ParseFile lib s file).2.vertices_count_ = 0) := by
  have hfin : ∀ st0 s1, ParseFile lib s file = Finish st0 s1 →
      (status = Status.kOk →
        GetVertex (ParseFile lib s file).2 ≠ [] ∧ GetEdges (ParseFile lib s file).2 ≠ []) ∧
      (status ≠ Status.kOk →
        GetVertex (ParseFile lib s file).2 = [] ∧ GetEdges (ParseFile lib s file).2 = [] ∧
          (ParseFile lib s file).2.vertices_count_ = 0) := by
    intro st0 s1 he
    rcases Finish_cases st0 s1 with ⟨hf, -, hv, hedge⟩ | ⟨st, hst, hf, -⟩
    · rw [he, hf]
      rw [he, hf] at h
      simp only [Outcome.returned.injEq] at h
      exact ⟨fun _ => ⟨hv, hedge⟩, fun hne => absurd h.symm hne⟩
    · rw [he, hf]
      rw [he, hf] at h
      simp only [Outcome.returned.injEq] at h
      subst h
      exact ⟨fun hk => absurd hk hst, fun _ => ⟨rfl, rfl, rfl⟩⟩
  rcases ParseFile_cases lib s file with ⟨-, he⟩ | ⟨c, -, -, he⟩ | ⟨c, s1, -, -, -, he⟩ |
    ⟨c, st, s1, -, -, -, he⟩
  · rw [he] at h ⊢
    simp only [Outcome.returned.injEq] at h
    subst h
    exact ⟨fun hk => by simp at hk, fun _ => ⟨rfl, rfl, rfl⟩⟩
  · rw [he] at h ⊢
    simp only [Outcome.returned.injEq] at h
    subst h
    exact ⟨fun hk => by simp at hk, fun _ => ⟨rfl, rfl, rfl⟩⟩
  · rw [he] at h
    simp at h
  · exact hfin st s1 he

/-- The preceding theorem applied to a concrete input. -/
theorem ParseFile_status_state_witness :
    (ParseFile decimalLib usedParser (some lateFailureFile)).1 =
        Outcome.returned Status.kErrorFileEmpty ∧
    (Status.kErrorFileEmpty ≠ Status.kOk →
      GetVertex (ParseFile decimalLib usedParser (some lateFailureFile)).2 = [] ∧
      GetEdges (ParseFile decimalLib usedParser (some lateFailureFile)).2 = [] ∧
      (ParseFile decimalLib usedParser (some lateFailureFile)).2.vertices_count_ = 0) :=
  ⟨by decide,
    (ParseFile_status_state decimalLib usedParser (some lateFailureFile)
      Status.kErrorFileEmpty (by decide)).2⟩

/-! ## The status after a failed line -/

theorem Ingest_append (lib : StdLib) (pre rest : List (List Char)) :
    ∀ s s1 : ObjParser, Ingest lib s pre = (Outcome.returned Status.kOk, s1) →
      Ingest lib s (pre ++ rest) = Ingest lib s1 rest := by
  induction pre with
  | nil =>
    intro s s1 h
    have h2 : s = s1 := by
      have := congrArg Prod.snd h
      rw [Ingest] at this
      exact this
    subst h2
    rfl
  | cons l ls ih =>
    intro s s1 h
    rw [List.cons_append]
    rw [Ingest.eq_2] at h ⊢
    split at h
    · rename_i s2 heq
      exact ih s2 s1 h
    · rename_i r hne
      exfalso
      exact hne s1 h

theorem Ingest_stops (lib : StdLib) (s s1 : ObjParser) (line : List Char)
    (rest : List (List Char)) (out : Outcome) (hne : out ≠ Outcome.returned Status.kOk)
    (h : ParseLine lib s line = (out, s1)) : Ingest lib s (line :: rest) = (out, s1) := by
  unfold Ingest
  split
  · rename_i s2 heq
    rw [h] at heq
    simp only [Prod.mk.injEq] at heq
    exact absurd heq.1 hne
  · exact h

theorem ParseFile_eq_Finish (lib : StdLib) (s : ObjParser) (content : List Char)
    (status : Status) (s1 : ObjParser) (hscan : ReserveData (getlines content) = Status.kOk)
    (hI : Ingest lib (ClearData s) (getlines content) = (Outcome.returned status, s1)) :
    ParseFile lib s (some content) = Finish status s1 := by
  simp only [ParseFile, hscan, hI]

/-- A vertex line on which the extraction of three numbers fails, met after any
lines ingested without error in a file that passes the pre-scan, makes
`ParseFile` return `kErrorFileEmpty`: the status `kErrorIncorrectFile` that
`ParseVertex` returns is replaced at line 25, the lists being empty by then. -/
theorem ParseFile_vertex_failure (lib : StdLib) (s s1 : ObjParser) (content : List Char)
    (pre post : List (List Char)) (line : List Char)
    (hlines : getlines content = pre ++ line :: post)
    (hscan : ReserveData (getlines content) = Status.kOk)
    (hpre : Ingest lib (ClearData s) pre = (Outcome.returned Status.kOk, s1))
    (hline : isVertexLine line = true) (hbad : extract3 lib (line.drop 2) = none) :
    ParseLine lib s1 line = (Outcome.returned Status.kErrorIncorrectFile, ClearData s1) ∧
    ParseFile lib s (some content) = (Outcome.returned Status.kErrorFileEmpty, ClearData s) := by
  have hv : 2 < line.length ∧ firstToken line = ['v'] := by
    simpa [isVertexLine] using hline
  have hP : ParseLine lib s1 line =
      (Outcome.returned Status.kErrorIncorrectFile, ClearData s1) := by
    simp [ParseLine, hv.1, hv.2, ParseVertex, hbad]
  refine ⟨hP, ?_⟩
  have hI : Ingest lib (ClearData s) (getlines content) =
      (Outcome.returned Status.kErrorIncorrectFile, ClearData s1) := by
    rw [hlines, Ingest_append lib pre _ _ s1 hpre]
    exact Ingest_stops lib s1 _ line post _ (by decide) hP
  rw [ParseFile_eq_Finish lib s content _ _ hscan hI]
  simp [Finish, ClearData]

/-- C3 (evaluation). On `v 1.0 abc 2.0` followed by `f 1 2 3` the pre-scan
passes and the first line fails in `ParseVertex` with `kErrorIncorrectFile`,
but `ParseFile` returns `kErrorFileEmpty`; the state is rolled back. -/
theorem ParseFile_malformedVertexFile :
    ReserveData (getlines malformedVertexFile) = Status.kOk ∧
    ParseLine decimalLib (ClearData usedParser) "v 1.0 abc 2.0".toList =
      (Outcome.returned Status.kErrorIncorrectFile, ClearData usedParser) ∧
    ParseFile decimalLib usedParser (some malformedVertexFile) =
      (Outcome.returned Status.kErrorFileEmpty, ClearData usedParser) := by
  decide

/-- A face line that `ParseFace` rejects with `kErrorIncorrectFile`, met after
any lines ingested without error in a file that passes the pre-scan: `ParseFile`
returns `kErrorIncorrectFile` only when a vertex and an edge exist by then, and
`kErrorFileEmpty` otherwise. -/
theorem ParseFile_face_failure (lib : StdLib) (s s1 : ObjParser) (content : List Char)
    (pre post : List (List Char)) (line : List Char)
    (hlines : getlines content = pre ++ line :: post)
    (hscan : ReserveData (getlines content) = Status.kOk)
    (hpre : Ingest lib (ClearData s) pre = (Outcome.returned Status.kOk, s1))
    (hline : isFaceLine line = true)
    (hbad : (ParseFace s1 (line.drop 2)).1 = Outcome.returned Status.kErrorIncorrectFile) :
    ParseFile lib s (some content) =
      (Outcome.returned
        (if s1.vertices_ = [] ∨ s1.edges_ = [] then Status.kErrorFileEmpty
          else Status.kErrorIncorrectFile), ClearData s) := by
  have hf : 2 < line.length ∧ firstToken line = ['f'] := by
    simpa [isFaceLine] using hline
  have hs : (ParseFace s1 (line.drop 2)).2 = s1 := by
    unfold ParseFace at hbad ⊢
    split
    · rfl
    · rename_i b hb
      rw [hb] at hbad
      simp at hbad
  have hP : ParseLine lib s1 line = (Outcome.returned Status.kErrorIncorrectFile, s1) := by
    have hvf : firstToken line ≠ ['v'] := by rw [hf.2]; decide
    simp only [ParseLine, hf.1, hf.2, if_true]
    rw [if_neg (by decide)]
    exact Prod.ext hbad hs
  have hI : Ingest lib (ClearData s) (getlines content) =
      (Outcome.returned Status.kErrorIncorrectFile, s1) := by
    rw [hlines, Ingest_append lib pre _ _ s1 hpre]
    exact Ingest_stops lib s1 _ line post _ (by decide) hP
  rw [ParseFile_eq_Finish lib s content _ _ hscan hI]
  simp only [Finish]
  by_cases hv : s1.vertices_ = [] ∨ s1.edges_ = []
  · simp [hv, ClearData]
  · simp [hv, ClearData]

/-- C4 (evaluation). On `v 0 0 0` followed by `f 5 1` the pre-scan passes and
the face line fails the bound check in `ParseFace` with `kErrorIncorrectFile`
(5 exceeds the 3 coordinate values stored), but `ParseFile` returns
`kErrorFileEmpty` because no edge exists yet; with edges from an earlier face
the same failure is returned as `kErrorIncorrectFile`. -/
theorem ParseFile_malformedFaceFile :
    ReserveData (getlines malformedFaceFile) = Status.kOk ∧
    ParseLine decimalLib (ClearData usedParser) "v 0 0 0".toList =
      (Outcome.returned Status.kOk,
        { vectors_set_ := [], vertices_ := [0, 0, 0], edges_ := [], vertices_count_ := 1,
          x_coef_ := 0, y_coef_ := 0, z_coef_ := 0 }) ∧
    (ParseFace
        { vectors_set_ := [], vertices_ := [0, 0, 0], edges_ := [], vertices_count_ := 1,
          x_coef_ := 0, y_coef_ := 0, z_coef_ := 0 } "5 1".toList).1 =
      Outcome.returned Status.kErrorIncorrectFile ∧
    ParseFile decimalLib usedParser (some malformedFaceFile) =
      (Outcome.returned Status.kErrorFileEmpty, ClearData usedParser) ∧
    ParseFile decimalLib usedParser (some malformedFaceAfterEdgesFile) =
      (Outcome.returned Status.kErrorIncorrectFile, ClearData usedParser) := by
  decide

/-! ## The face loop and the scratch buffer -/

theorem stoi_value_range (tok : List Char) (n : Int) (h : stoi tok = StoiResult.value n) :
    -2147483648 ≤ n ∧ n ≤ 2147483647 := by
  unfold stoi at h
  simp only at h
  split_ifs at h with h1 h2 h3 <;>
    (simp only [StoiResult.value.injEq] at h
     subst h
     omega)

theorem ResolveIndex_value (s : ObjParser) (tok : List Char) (n : Int)
    (h : stoi tok = StoiResult.value n) (hb : n.natAbs ≤ s.vertices_.length) :
    ResolveIndex s tok = Except.ok (normalizeIndex s n) := by
  unfold ResolveIndex
  rw [h]
  simp only
  rw [if_neg (by omega)]

theorem ResolveIndex_rejects (s : ObjParser) (tok : List Char)
    (h : stoi tok = StoiResult.out_of_range ∨
      ∃ n, stoi tok = StoiResult.value n ∧ s.vertices_.length < n.natAbs) :
    ResolveIndex s tok = Except.error (Outcome.returned Status.kErrorIncorrectFile) := by
  unfold ResolveIndex
  rcases h with h | ⟨n, h, hb⟩
  · rw [h]
  · rw [h]
    simp only
    rw [if_pos (by omega)]

theorem ResolveIndex_ok (s : ObjParser) (tok : List Char) (r : Int)
    (h : ResolveIndex s tok = Except.ok r) :
    ∃ n, stoi tok = StoiResult.value n ∧ n.natAbs ≤ s.vertices_.length ∧
      r = normalizeIndex s n := by
  unfold ResolveIndex at h
  split at h
  · simp at h
  · simp at h
  · rename_i n hn
    split at h
    · simp at h
    · rename_i hb
      simp only [Except.ok.injEq] at h
      exact ⟨n, hn, by omega, h.symm⟩

theorem ResolveIndex_error (s : ObjParser) (tok : List Char) (e : Outcome)
    (h : ResolveIndex s tok = Except.error e) :
    (e = Outcome.invalid_argument ∧ stoi tok = StoiResult.invalid_argument) ∨
    (e = Outcome.returned Status.kErrorIncorrectFile ∧
      (stoi tok = StoiResult.out_of_range ∨
        ∃ n, stoi tok = StoiResult.value n ∧ s.vertices_.length < n.natAbs)) := by
  unfold ResolveIndex at h
  split at h
  · rename_i hs
    simp only [Except.error.injEq] at h
    exact Or.inl ⟨h.symm, hs⟩
  · rename_i hs
    simp only [Except.error.injEq] at h
    exact Or.inr ⟨h.symm, Or.inl hs⟩
  · rename_i n hn
    split at h
    · rename_i hb
      simp only [Except.error.injEq] at h
      exact Or.inr ⟨h.symm, Or.inr ⟨n, hn, by omega⟩⟩
    · simp at h

theorem FaceLoop_ok (s : ObjParser) (toks : List (List Char)) :
    ∀ (rs : List Int) (loc : FaceLocals),
      toks.map (ResolveIndex s) = rs.map Except.ok →
      FaceLoop s loc toks = Except.ok (rs.foldl PushIndex loc) := by
  induction toks with
  | nil =>
    intro rs loc h
    cases rs with
    | nil => rfl
    | cons r rest => simp at h
  | cons t ts ih =>
    intro rs loc h
    cases rs with
    | nil => simp at h
    | cons r rest =>
      simp only [List.map_cons, List.cons.injEq] at h
      rw [FaceLoop.eq_2]
      simp only [FaceStep, h.1, List.foldl_cons]
      exact ih rest _ h.2

theorem FaceLoop_ok_inv (s : ObjParser) (toks : List (List Char)) :
    ∀ (loc loc1 : FaceLocals), FaceLoop s loc toks = Except.ok loc1 →
      ∃ rs : List Int, toks.map (ResolveIndex s) = rs.map Except.ok := by
  induction toks with
  | nil => intro loc loc1 _; exact ⟨[], rfl⟩
  | cons t ts ih =>
    intro loc loc1 h
    rw [FaceLoop.eq_2] at h
    split at h
    · simp at h
    · rename_i loc2 hstep
      obtain ⟨rs, hrs⟩ := ih _ _ h
      unfold FaceStep at hstep
      split at hstep
      · simp at hstep
      · rename_i r hr
        exact ⟨r :: rs, by simp [hr, hrs]⟩

theorem FaceLoop_error (s : ObjParser) (toks : List (List Char)) :
    ∀ (loc : FaceLocals) (e : Outcome), FaceLoop s loc toks = Except.error e →
      ∃ tok ∈ toks, ResolveIndex s tok = Except.error e := by
  induction toks with
  | nil => intro loc e h; simp [FaceLoop] at h
  | cons t ts ih =>
    intro loc e h
    rw [FaceLoop.eq_2] at h
    split at h
    · rename_i e2 hstep
      simp only [Except.error.injEq] at h
      subst h
      unfold FaceStep at hstep
      split at hstep
      · rename_i e3 hr
        simp only [Except.error.injEq] at hstep
        subst hstep
        exact ⟨t, List.mem_cons_self _ _, hr⟩
      · simp at hstep
    · obtain ⟨tok, hm, ht⟩ := ih _ _ h
      exact ⟨tok, List.mem_cons_of_mem _ hm, ht⟩

theorem FaceLoop_total (s : ObjParser) (toks : List (List Char)) (loc : FaceLocals) :
    (∃ rs : List Int, toks.map (ResolveIndex s) = rs.map Except.ok) ∨
    (∃ e, FaceLoop s loc toks = Except.error e) := by
  rcases h : FaceLoop s loc toks with e | loc1
  · exact Or.inr ⟨e, rfl⟩
  · exact Or.inl (FaceLoop_ok_inv s toks loc loc1 h)

theorem foldl_PushIndex_later (rs : List Int) :
    ∀ loc : FaceLocals, loc.is_first_index = false →
      rs.foldl PushIndex loc =
        { loc with
          faces_buff := loc.faces_buff ++ rs.flatMap (fun r => [toUnsigned r, toUnsigned r]) } := by
  induction rs with
  | nil => intro loc _; simp
  | cons r rest ih =>
    intro loc h
    have hp : PushIndex loc r =
        { loc with faces_buff := loc.faces_buff ++ [toUnsigned r, toUnsigned r] } := by
      simp [PushIndex, h]
    rw [List.foldl_cons, hp,
      ih { loc with faces_buff := loc.faces_buff ++ [toUnsigned r, toUnsigned r] } h]
    simp

theorem foldl_PushIndex_init (r : Int) (rest : List Int) :
    (r :: rest).foldl PushIndex FaceLocals.init =
      { first_index := r, is_first_index := false,
        faces_buff := toUnsigned r :: rest.flatMap (fun x => [toUnsigned x, toUnsigned x]) } := by
  have hp : PushIndex FaceLocals.init r =
      { first_index := r, is_first_index := false, faces_buff := [toUnsigned r] } := by
    simp [PushIndex, FaceLocals.init]
  rw [List.foldl_cons, hp, foldl_PushIndex_later rest _ rfl]
  simp

/-- The scratch buffer of an accepted face with resolved indices `r :: rest`:
the first index, every later index twice, the first index again. -/
theorem FaceBuffer_accepted (s : ObjParser) (data : List Char) (r : Int) (rest : List Int)
    (h : (tokens data).map (ResolveIndex s) = (r :: rest).map Except.ok) :
    FaceBuffer s data =
      Except.ok (toUnsigned r :: rest.flatMap (fun x => [toUnsigned x, toUnsigned x]) ++
        [toUnsigned r]) := by
  unfold FaceBuffer
  rw [FaceLoop_ok s _ _ _ h, foldl_PushIndex_init]

/-- The scratch buffer of a fragment without a token has length one. -/
theorem FaceBuffer_no_token (s : ObjParser) (data : List Char) (h : tokens data = []) :
    FaceBuffer s data = Except.ok [toUnsigned indeterminate] := by
  unfold FaceBuffer
  rw [h]
  rfl

theorem pairsOf_chain (f : Int → Nat) (rest : List Int) :
    ∀ (a c : Nat), pairsOf (a :: rest.flatMap (fun x => [f x, f x]) ++ [c]) =
      List.zip (a :: rest.map f) (rest.map f ++ [c]) := by
  induction rest with
  | nil => intro a c; simp [pairsOf]
  | cons r rs ih =>
    intro a c
    have e : (a :: (r :: rs).flatMap (fun x => [f x, f x]) ++ [c]) =
        a :: f r :: (f r :: rs.flatMap (fun x => [f x, f x]) ++ [c]) := by simp
    rw [e, pairsOf, ih (f r) c]
    simp

/-! ## Tokens that are not integers -/

theorem splitSign_append (tok rest : List Char) (h : (splitSign tok).2 ≠ []) :
    splitSign (tok ++ rest) = ((splitSign tok).1, (splitSign tok).2 ++ rest) := by
  cases tok with
  | nil => simp [splitSign] at h
  | cons c r =>
    by_cases h1 : c = '-'
    · subst h1; rfl
    · by_cases h2 : c = '+'
      · subst h2; rfl
      · have e : ∀ l, splitSign (c :: l) = (false, c :: l) := by
          intro l
          unfold splitSign
          split
          · rename_i heq; simp only [List.cons.injEq] at heq; exact absurd heq.1 h1
          · rename_i heq; simp only [List.cons.injEq] at heq; exact absurd heq.1 h2
          · rfl
        rw [List.cons_append, e, e]
        rfl

theorem isIntegerToken_first (c : Char) (r : List Char) (h : isIntegerToken (c :: r) = true) :
    ¬ isspace c = true := by
  intro hc
  have h1 : c ≠ '-' := by rintro rfl; exact absurd hc (by decide)
  have h2 : c ≠ '+' := by rintro rfl; exact absurd hc (by decide)
  have e : splitSign (c :: r) = (false, c :: r) := by
    unfold splitSign
    split
    · rename_i heq; simp only [List.cons.injEq] at heq; exact absurd heq.1 h1
    · rename_i heq; simp only [List.cons.injEq] at heq; exact absurd heq.1 h2
    · rfl
  simp only [isIntegerToken, e, List.all_cons, Bool.and_eq_true] at h
  have hd : c.isDigit = true := h.2.1
  have : ¬ (isspace c = true ∧ c.isDigit = true) := by
    simp only [isspace, Char.isDigit, Bool.or_eq_true, decide_eq_true_eq, Bool.and_eq_true]
    rintro ⟨hs, hl, hu⟩
    rcases hs with ((((rfl | rfl) | rfl) | rfl) | rfl) | rfl <;> simp at hl
  exact this ⟨hc, hd⟩

theorem isIntegerToken_head (tok : List Char) (h : isIntegerToken tok = true) :
    tok.dropWhile isspace = tok := by
  cases tok with
  | nil => rfl
  | cons c r => simp [List.dropWhile, isIntegerToken_first c r h]

/-- Characters after the digits of an integer token do not change what `stoi`
returns, provided the first of them is not a digit. -/
theorem stoi_trailing (tok rest : List Char) (h : isIntegerToken tok = true)
    (hrest : ∀ c ∈ rest.head?, c.isDigit = false) : stoi (tok ++ rest) = stoi tok := by
  have hne : (splitSign tok).2 ≠ [] := by
    simp only [isIntegerToken, Bool.and_eq_true, decide_eq_true_eq] at h
    exact h.1
  have hall : ∀ c ∈ (splitSign tok).2, c.isDigit = true := by
    simp only [isIntegerToken, Bool.and_eq_true, List.all_eq_true] at h
    exact h.2
  have hd1 : (tok ++ rest).dropWhile isspace = tok ++ rest := by
    cases tok with
    | nil => simp [splitSign] at hne
    | cons c r => simp [List.dropWhile, isIntegerToken_first c r h]
  have htw : (splitSign tok).2.takeWhile Char.isDigit = (splitSign tok).2 :=
    List.takeWhile_eq_self_iff.2 hall
  have ht : rest.takeWhile Char.isDigit = [] := by
    cases rest with
    | nil => rfl
    | cons c r =>
      have := hrest c (by simp)
      simp [List.takeWhile, this]
  unfold stoi
  simp only [hd1, isIntegerToken_head tok h, splitSign_append tok rest hne,
    List.takeWhile_append_of_pos hall, ht, List.append_nil, htw]

/-- C5 (as stated, refuted). The fragment `1 2abc 3` holds the token `2abc`,
which is not a valid integer, yet with three vertices stored `ParseFace`
returns `kOk` and does exactly what it does on `1 2 3`. -/
theorem ParseFace_accepts_trailing_characters :
    "2abc".toList ∈ tokens "1 2abc 3".toList ∧
    isIntegerToken "2abc".toList = false ∧
    (ParseFace threeVertices "1 2abc 3".toList).1 = Outcome.returned Status.kOk ∧
    ParseFace threeVertices "1 2abc 3".toList = ParseFace threeVertices "1 2 3".toList := by
  decide

/-- C5 (amended). In every parser state, on a face fragment whose tokens all
start with an integer (so that `std::stoi` does not throw), `ParseFace` returns
`kErrorIncorrectFile` and leaves the state as it was when the leading integer
of some token is outside `int` or exceeds the coordinate count in magnitude,
and returns `kOk` when no token does; the characters that follow the leading
integer of a token are ignored. -/
theorem ParseFace_numeric_tokens (s : ObjParser) (data : List Char)
    (hnum : ∀ tok ∈ tokens data, stoi tok ≠ StoiResult.invalid_argument) :
    ((∃ tok ∈ tokens data, stoi tok = StoiResult.out_of_range ∨
          ∃ n, stoi tok = StoiResult.value n ∧ s.vertices_.length < n.natAbs) →
        ParseFace s data = (Outcome.returned Status.kErrorIncorrectFile, s)) ∧
    ((∀ tok ∈ tokens data, ∃ n, stoi tok = StoiResult.value n ∧
          n.natAbs ≤ s.vertices_.length) →
        (ParseFace s data).1 = Outcome.returned Status.kOk) ∧
    (∀ tok rest : List Char, isIntegerToken tok = true →
        (∀ c ∈ rest.head?, c.isDigit = false) → stoi (tok ++ rest) = stoi tok) := by
  refine ⟨?_, ?_, fun tok rest h hr => stoi_trailing tok rest h hr⟩
  · rintro ⟨tok, hm, hbad⟩
    have hrej := ResolveIndex_rejects s tok hbad
    rcases FaceLoop_total s (tokens data) FaceLocals.init with ⟨rs, hrs⟩ | ⟨e, he⟩
    · exfalso
      have : ResolveIndex s tok ∈ (tokens data).map (ResolveIndex s) := List.mem_map_of_mem _ hm
      rw [hrs, hrej] at this
      simp at this
    · obtain ⟨t2, hm2, ht2⟩ := FaceLoop_error s _ _ e he
      rcases ResolveIndex_error s t2 e ht2 with ⟨-, hinv⟩ | ⟨hE, -⟩
      · exact absurd hinv (hnum t2 hm2)
      · subst hE
        simp [ParseFace, FaceBuffer, he]
  · intro hall
    have hmap : ∃ rs : List Int, (tokens data).map (ResolveIndex s) = rs.map Except.ok := by
      generalize tokens data = toks at hall
      induction toks with
      | nil => exact ⟨[], rfl⟩
      | cons t ts ih =>
        obtain ⟨rs, hrs⟩ := ih (fun tok hm => hall tok (List.mem_cons_of_mem _ hm))
        obtain ⟨n, hn, hb⟩ := hall t (List.mem_cons_self _ _)
        exact ⟨normalizeIndex s n :: rs, by simp [ResolveIndex_value s t n hn hb, hrs]⟩
    obtain ⟨rs, hrs⟩ := hmap
    simp [ParseFace, FaceBuffer, FaceLoop_ok s _ rs _ hrs]

/-- The preceding theorem applied to a concrete input. -/
theorem ParseFace_numeric_tokens_witness :
    (∀ tok ∈ tokens "1 99 2abc".toList, stoi tok ≠ StoiResult.invalid_argument) ∧
    (∃ tok ∈ tokens "1 99 2abc".toList, stoi tok = StoiResult.out_of_range ∨
        ∃ n, stoi tok = StoiResult.value n ∧ threeVertices.vertices_.length < n.natAbs) ∧
    ParseFace threeVertices "1 99 2abc".toList =
      (Outcome.returned Status.kErrorIncorrectFile, threeVertices) :=
  ⟨by decide, ⟨"99".toList, by decide, Or.inr ⟨99, by decide, by decide⟩⟩,
    (ParseFace_numeric_tokens threeVertices "1 99 2abc".toList (by decide)).1
      ⟨"99".toList, by decide, Or.inr ⟨99, by decide, by decide⟩⟩⟩

/-! ## The pre-scan -/

theorem ReserveLine_fst (acc : Nat × Nat) (line : List Char) (h : isVertexLine line = false) :
    (ReserveLine acc line).1 = acc.1 := by
  unfold ReserveLine
  split
  · rfl
  · rename_i hlen
    split
    · rename_i hv
      exfalso
      simp [isVertexLine, hv] at h
      omega
    · split <;> rfl

theorem ReserveLine_snd (acc : Nat × Nat) (line : List Char)
    (h : isFaceLine line = true → faceTokens line = []) :
    (ReserveLine acc line).2 = acc.2 := by
  unfold ReserveLine
  split
  · rfl
  · rename_i hlen
    split
    · rfl
    · split
      · rename_i hf
        have : faceTokens line = [] := h (by simp [isFaceLine, hf]; omega)
        unfold faceTokens at this
        rw [this]
        rfl
      · rfl

theorem foldl_ReserveLine_fst (lines : List (List Char)) :
    ∀ acc : Nat × Nat, (∀ line ∈ lines, isVertexLine line = false) →
      (lines.foldl ReserveLine acc).1 = acc.1 := by
  induction lines with
  | nil => intro acc _; rfl
  | cons l ls ih =>
    intro acc h
    rw [List.foldl_cons, ih _ (fun line hm => h line (List.mem_cons_of_mem _ hm)),
      ReserveLine_fst acc l (h l (List.mem_cons_self _ _))]

theorem foldl_ReserveLine_snd (lines : List (List Char)) :
    ∀ acc : Nat × Nat, (∀ line ∈ lines, isFaceLine line = true → faceTokens line = []) →
      (lines.foldl ReserveLine acc).2 = acc.2 := by
  induction lines with
  | nil => intro acc _; rfl
  | cons l ls ih =>
    intro acc h
    rw [List.foldl_cons, ih _ (fun line hm => h line (List.mem_cons_of_mem _ hm)),
      ReserveLine_snd acc l (h l (List.mem_cons_self _ _))]

theorem ParseFile_prescan_fails (lib : StdLib) (s : ObjParser) (content : List Char)
    (h : (∀ line ∈ getlines content, isVertexLine line = false) ∨
      (∀ line ∈ getlines content, isFaceLine line = true → faceTokens line = [])) :
    ParseFile lib s (some content) = (Outcome.returned Status.kErrorFileEmpty, ClearData s) := by
  have hscan : ReserveData (getlines content) ≠ Status.kOk := by
    unfold ReserveData ReserveCounts
    rcases h with h | h
    · rw [foldl_ReserveLine_fst _ _ h]
      simp
    · rw [foldl_ReserveLine_snd _ _ h]
      simp
  rcases ParseFile_cases lib s (some content) with ⟨hc, -⟩ | ⟨c, -, -, he⟩ | ⟨c, s1, hc, hr, -, -⟩ |
    ⟨c, st, s1, hc, hr, -, -⟩
  · simp at hc
  · exact he
  · simp only [Option.some.injEq] at hc
    subst hc
    exact absurd hr hscan
  · simp only [Option.some.injEq] at hc
    subst hc
    exact absurd hr hscan

/-- C6. For every openable file that has no vertex line, or no index token on
any face line, `ParseFile` returns `kErrorFileEmpty` (and leaves the parser
cleared), whatever the prior state. -/
theorem ParseFile_no_vertex_or_no_face (lib : StdLib) (s : ObjParser) (content : List Char)
    (h : (∀ line ∈ getlines content, isVertexLine line = false) ∨
      (∀ line ∈ getlines content, isFaceLine line = true → faceTokens line = [])) :
    ParseFile lib s (some content) = (Outcome.returned Status.kErrorFileEmpty, ClearData s) :=
  ParseFile_prescan_fails lib s content h

/-- The preceding theorem applied to a concrete input. -/
theorem ParseFile_no_vertex_or_no_face_witness :
    ((∀ line ∈ getlines verticesOnlyFile, isVertexLine line = false) ∨
      (∀ line ∈ getlines verticesOnlyFile, isFaceLine line = true → faceTokens line = [])) ∧
    ParseFile decimalLib usedParser (some verticesOnlyFile) =
      (Outcome.returned Status.kErrorFileEmpty, ClearData usedParser) :=
  ⟨Or.inr (by decide),
    ParseFile_no_vertex_or_no_face decimalLib usedParser verticesOnlyFile
      (Or.inr (by decide))⟩

/-- The four particular files: the empty file, a file of ignored lines,
vertices without faces, faces without vertices. -/
theorem ParseFile_trivial_files (lib : StdLib) (s : ObjParser) :
    ParseFile lib s (some []) = (Outcome.returned Status.kErrorFileEmpty, ClearData s) ∧
    ParseFile lib s (some commentsOnlyFile) =
      (Outcome.returned Status.kErrorFileEmpty, ClearData s) ∧
    ParseFile lib s (some verticesOnlyFile) =
      (Outcome.returned Status.kErrorFileEmpty, ClearData s) ∧
    ParseFile lib s (some facesOnlyFile) =
      (Outcome.returned Status.kErrorFileEmpty, ClearData s) :=
  ⟨ParseFile_prescan_fails lib s [] (Or.inl (by decide)),
    ParseFile_prescan_fails lib s commentsOnlyFile (Or.inl (by decide)),
    ParseFile_prescan_fails lib s verticesOnlyFile (Or.inr (by decide)),
    ParseFile_prescan_fails lib s facesOnlyFile (Or.inl (by decide))⟩

/-! ## The edges of a face -/

theorem Reached_EdgesInv (lib : StdLib) (s : ObjParser) (h : Reached lib s) : EdgesInv s := by
  obtain ⟨s0, lines, hI⟩ := h
  have := EdgesInv_Ingest lib lines _ (EdgesInv_ClearData s0)
  rw [hI] at this
  exact this

theorem InsertPair_mono (s : ObjParser) (a b : Nat) (p : Nat × Nat) (h : p ∈ s.vectors_set_) :
    p ∈ (InsertPair s a b).vectors_set_ := by
  unfold InsertPair
  split
  · exact List.mem_cons_of_mem _ h
  · exact h

theorem InsertPair_covers (s : ObjParser) (a b : Nat) :
    (a, b) ∈ (InsertPair s a b).vectors_set_ ∨ (b, a) ∈ (InsertPair s a b).vectors_set_ := by
  unfold InsertPair
  split
  · exact Or.inl (List.mem_cons_self _ _)
  · rename_i h
    by_cases h1 : (a, b) ∈ s.vectors_set_
    · exact Or.inl h1
    · by_cases h2 : (b, a) ∈ s.vectors_set_
      · exact Or.inr h2
      · exact absurd ⟨h1, h2⟩ h

theorem InsertLoop_mono (data : List Nat) : ∀ (s : ObjParser) (p : Nat × Nat),
    p ∈ s.vectors_set_ → p ∈ (InsertLoop s data).vectors_set_ := by
  induction data using pairsOf.induct with
  | case1 a b rest ih =>
    intro s p h
    rw [InsertLoop]
    exact ih _ p (InsertPair_mono s a b p h)
  | case2 l hl =>
    intro s p h
    match l, hl with
    | [], _ => simpa [InsertLoop] using h
    | [c], _ => simpa [InsertLoop] using h
    | x :: y :: r, hl => exact absurd rfl (hl x y r)

theorem InsertLoop_covers (data : List Nat) : ∀ (s : ObjParser) (p : Nat × Nat),
    p ∈ pairsOf data →
      p ∈ (InsertLoop s data).vectors_set_ ∨ (p.2, p.1) ∈ (InsertLoop s data).vectors_set_ := by
  induction data using pairsOf.induct with
  | case1 a b rest ih =>
    intro s p h
    rw [InsertLoop]
    simp only [pairsOf, List.mem_cons] at h
    rcases h with rfl | h
    · rcases InsertPair_covers s a b with h1 | h1
      · exact Or.inl (InsertLoop_mono rest _ _ h1)
      · exact Or.inr (InsertLoop_mono rest _ _ h1)
    · exact ih _ p h
  | case2 l hl =>
    intro s p h
    match l, hl, h with
    | [], _, h => simp [pairsOf] at h
    | [c], _, h => simp [pairsOf] at h
    | x :: y :: r, hl, _ => exact absurd rfl (hl x y r)

theorem Apart_countP (l : List (Nat × Nat)) (h : l.Pairwise Apart) (a b : Nat)
    (hm : (a, b) ∈ l ∨ (b, a) ∈ l) :
    l.countP (fun p => decide (p = (a, b) ∨ p = (b, a))) = 1 := by
  induction l with
  | nil => simp at hm
  | cons q l ih =>
    rw [List.pairwise_cons] at h
    obtain ⟨hq, hl⟩ := h
    by_cases hmatch : q = (a, b) ∨ q = (b, a)
    · have hzero : l.countP (fun p => decide (p = (a, b) ∨ p = (b, a))) = 0 := by
        rw [List.countP_eq_zero]
        intro r hr
        simp only [decide_eq_true_eq]
        intro hrm
        have hA := hq r hr
        unfold Apart at hA
        rcases hmatch with rfl | rfl <;> rcases hrm with rfl | rfl <;> simp at hA
      rw [List.countP_cons, hzero]
      simp [hmatch]
    · have hm2 : (a, b) ∈ l ∨ (b, a) ∈ l := by
        rcases hm with hm | hm
        · rcases List.mem_cons.1 hm with h1 | h1
          · exact absurd (Or.inl h1.symm) hmatch
          · exact Or.inl h1
        · rcases List.mem_cons.1 hm with h1 | h1
          · exact absurd (Or.inr h1.symm) hmatch
          · exact Or.inr h1
      rw [List.countP_cons, ih hl hm2]
      simp [hmatch]

theorem length_flatMap_twice (f : Int → Nat) (l : List Int) :
    (l.flatMap (fun x => [f x, f x])).length = 2 * l.length := by
  induction l with
  | nil => rfl
  | cons x xs ih =>
    simp only [List.flatMap_cons, List.length_append, List.length_cons, List.length_nil, ih]
    omega

theorem cycle_pair_getElem? (f : Int → Nat) (r : Int) (rest : List Int) (j : Nat)
    (hj : j < (r :: rest).length) :
    (List.zip (f r :: rest.map f) (rest.map f ++ [f r]))[j]? =
      some (f ((r :: rest).getD j 0), f ((r :: rest).getD ((j + 1) % (r :: rest).length) 0)) := by
  have hlen : j < (List.zip (f r :: rest.map f) (rest.map f ++ [f r])).length := by
    simp at hj ⊢
    omega
  have hget : (List.zip (f r :: rest.map f) (rest.map f ++ [f r]))[j] =
      (f ((r :: rest).getD j 0), f ((r :: rest).getD ((j + 1) % (r :: rest).length) 0)) := by
    simp only [List.getElem_zip, Prod.mk.injEq]
    simp only [List.length_cons] at hj
    constructor
    · have hj2 : j < (List.map f (r :: rest)).length := by simpa using hj
      show (List.map f (r :: rest))[j] = _
      rw [List.getElem_map, List.getD_eq_getElem _ _ (by simpa using hj)]
    · by_cases hlast : j < rest.length
      · have hm : (j + 1) % (r :: rest).length = j + 1 := by
          simp only [List.length_cons]
          exact Nat.mod_eq_of_lt (by omega)
        rw [hm, List.getElem_append_left (by simpa using hlast), List.getElem_map,
          List.getD_cons_succ, List.getD_eq_getElem _ _ hlast]
      · have hjl : j = rest.length := by omega
        have hm : (j + 1) % (r :: rest).length = 0 := by
          simp only [List.length_cons, hjl]
          exact Nat.mod_self _
        rw [hm, List.getElem_append_right (by simp; omega)]
        simp [hjl]
  rw [List.getElem?_eq_getElem hlen, hget]

theorem cycle_pair_mem (f : Int → Nat) (r : Int) (rest : List Int) (j : Nat)
    (hj : j < (r :: rest).length) :
    (f ((r :: rest).getD j 0), f ((r :: rest).getD ((j + 1) % (r :: rest).length) 0)) ∈
      List.zip (f r :: rest.map f) (rest.map f ++ [f r]) :=
  List.mem_iff_getElem?.2 ⟨j, cycle_pair_getElem? f r rest j hj⟩

/-- An accepted face with resolved indices `r1 .. rN`, `N ≥ 1`, in a state that
satisfies the dedup invariant: afterwards every edge `(r_j, r_j+1)` of the
closed loop is in the edge list in one direction, exactly once. -/
theorem ParseFace_cycle_edges (s : ObjParser) (data : List Char) (rs : List Int)
    (hinv : EdgesInv s) (hN : 1 ≤ rs.length)
    (hres : (tokens data).map (ResolveIndex s) = rs.map Except.ok) :
    (ParseFace s data).1 = Outcome.returned Status.kOk ∧
    ∀ j, j < rs.length →
      ((toUnsigned (rs.getD j 0), toUnsigned (rs.getD ((j + 1) % rs.length) 0)) ∈
          pairsOf (ParseFace s data).2.edges_ ∨
        (toUnsigned (rs.getD ((j + 1) % rs.length) 0), toUnsigned (rs.getD j 0)) ∈
          pairsOf (ParseFace s data).2.edges_) ∧
      (pairsOf (ParseFace s data).2.edges_).countP
        (fun p => decide
          (p = (toUnsigned (rs.getD j 0), toUnsigned (rs.getD ((j + 1) % rs.length) 0)) ∨
            p = (toUnsigned (rs.getD ((j + 1) % rs.length) 0), toUnsigned (rs.getD j 0)))) = 1 := by
  cases rs with
  | nil => simp at hN
  | cons r rest =>
    have hbuf := FaceBuffer_accepted s data r rest hres
    have hP : ParseFace s data = (Outcome.returned Status.kOk,
        InsertUniqueVector s (toUnsigned r ::
          rest.flatMap (fun x => [toUnsigned x, toUnsigned x]) ++ [toUnsigned r])) := by
      simp only [ParseFace, hbuf]
    have heven : (toUnsigned r :: rest.flatMap (fun x => [toUnsigned x, toUnsigned x]) ++
        [toUnsigned r]).length % 2 = 0 := by
      have := length_flatMap_twice toUnsigned rest
      simp only [List.length_cons, List.length_append, List.length_nil, this]
      omega
    have hinv2 := EdgesInv_InsertUniqueVector s
      (toUnsigned r :: rest.flatMap (fun x => [toUnsigned x, toUnsigned x]) ++ [toUnsigned r]) hinv
    rw [hP]
    refine ⟨rfl, ?_⟩
    intro j hj
    have hmem := cycle_pair_mem toUnsigned r rest j hj
    rw [← pairsOf_chain toUnsigned rest (toUnsigned r) (toUnsigned r)] at hmem
    have hcov : _ ∨ _ := InsertLoop_covers _ s _ hmem
    have hIU : InsertUniqueVector s (toUnsigned r ::
          rest.flatMap (fun x => [toUnsigned x, toUnsigned x]) ++ [toUnsigned r]) =
        InsertLoop s (toUnsigned r ::
          rest.flatMap (fun x => [toUnsigned x, toUnsigned x]) ++ [toUnsigned r]) := by
      unfold InsertUniqueVector
      rw [if_pos heven]
    rw [← hIU] at hcov
    simp only [hinv2.set_eq] at hcov
    exact ⟨hcov, Apart_countP _ hinv2.apart _ _ hcov⟩

theorem Reached_afterTriangle : Reached decimalLib afterTriangle :=
  ⟨usedParser, getlines "v 0 0 0\nv 1 0 0\nv 1 1 0\nv 0 1 0\nf 1 2 3\n".toList, by decide⟩

/-- C7. In every state reached during ingestion, for every face fragment with
`N ≥ 2` index tokens that `ParseFace` accepts, with resolved indices
`r1 .. rN`: `ParseFace` returns `kOk`, and afterwards, for every `j`, the edge
list holds the pair `(r_j, r_j+1)` or the pair `(r_j+1, r_j)` (with
`r_N+1 = r_1`), and this undirected edge occurs exactly once in it. -/
theorem ParseFace_closes_cycle (lib : StdLib) (s : ObjParser) (data : List Char)
    (rs : List Int) (hreach : Reached lib s) (hN : 2 ≤ rs.length)
    (hres : (tokens data).map (ResolveIndex s) = rs.map Except.ok) :
    (ParseFace s data).1 = Outcome.returned Status.kOk ∧
    ∀ j, j < rs.length →
      ((toUnsigned (rs.getD j 0), toUnsigned (rs.getD ((j + 1) % rs.length) 0)) ∈
          pairsOf (ParseFace s data).2.edges_ ∨
        (toUnsigned (rs.getD ((j + 1) % rs.length) 0), toUnsigned (rs.getD j 0)) ∈
          pairsOf (ParseFace s data).2.edges_) ∧
      (pairsOf (ParseFace s data).2.edges_).countP
        (fun p => decide
          (p = (toUnsigned (rs.getD j 0), toUnsigned (rs.getD ((j + 1) % rs.length) 0)) ∨
            p = (toUnsigned (rs.getD ((j + 1) % rs.length) 0), toUnsigned (rs.getD j 0)))) = 1 :=
  ParseFace_cycle_edges s data rs (Reached_EdgesInv lib s hreach) (by omega) hres

/-- The preceding theorem applied to a concrete input. -/
theorem ParseFace_closes_cycle_witness :
    Reached decimalLib afterTriangle ∧ 2 ≤ [(0 : Int), 2, 3].length ∧
    (tokens "1 3 4".toList).map (ResolveIndex afterTriangle) = [(0 : Int), 2, 3].map Except.ok ∧
    (ParseFace afterTriangle "1 3 4".toList).1 = Outcome.returned Status.kOk ∧
    (pairsOf (ParseFace afterTriangle "1 3 4".toList).2.edges_).countP
      (fun p => decide
        (p = (toUnsigned ([(0 : Int), 2, 3].getD 0 0),
              toUnsigned ([(0 : Int), 2, 3].getD ((0 + 1) % [(0 : Int), 2, 3].length) 0)) ∨
          p = (toUnsigned ([(0 : Int), 2, 3].getD ((0 + 1) % [(0 : Int), 2, 3].length) 0),
              toUnsigned ([(0 : Int), 2, 3].getD 0 0)))) = 1 :=
  ⟨Reached_afterTriangle, by decide, by rfl,
    (ParseFace_closes_cycle decimalLib afterTriangle "1 3 4".toList [0, 2, 3]
      Reached_afterTriangle (by decide) (by rfl)).1,
    ((ParseFace_closes_cycle decimalLib afterTriangle "1 3 4".toList [0, 2, 3]
      Reached_afterTriangle (by decide) (by rfl)).2 0 (by decide)).2⟩

/-! ## The vertex list -/

theorem InsertPair_frame (s : ObjParser) (a b : Nat) :
    (InsertPair s a b).vertices_ = s.vertices_ ∧
    (InsertPair s a b).vertices_count_ = s.vertices_count_ := by
  unfold InsertPair
  split <;> exact ⟨rfl, rfl⟩

theorem InsertLoop_frame (data : List Nat) : ∀ s : ObjParser,
    (InsertLoop s data).vertices_ = s.vertices_ ∧
    (InsertLoop s data).vertices_count_ = s.vertices_count_ := by
  induction data using pairsOf.induct with
  | case1 a b rest ih =>
    intro s
    rw [InsertLoop, (ih _).1, (ih _).2]
    exact InsertPair_frame s a b
  | case2 l hl =>
    intro s
    match l, hl with
    | [], _ => exact ⟨rfl, rfl⟩
    | [c], _ => exact ⟨rfl, rfl⟩
    | x :: y :: r, hl => exact absurd rfl (hl x y r)

theorem ParseFace_frame (s : ObjParser) (data : List Char) :
    (ParseFace s data).2.vertices_ = s.vertices_ ∧
    (ParseFace s data).2.vertices_count_ = s.vertices_count_ := by
  unfold ParseFace
  split
  · exact ⟨rfl, rfl⟩
  · unfold InsertUniqueVector
    split
    · exact InsertLoop_frame _ s
    · exact ⟨rfl, rfl⟩

theorem CountInv_ParseLine (lib : StdLib) (s : ObjParser) (line : List Char)
    (h : CountInv s) : CountInv (ParseLine lib s line).2 := by
  unfold CountInv at h ⊢
  unfold ParseLine
  split
  · split
    · unfold ParseVertex
      split
      · simp only [List.length_append, List.length_cons, List.length_nil]
        omega
      · rfl
    · split
      · rw [(ParseFace_frame s _).1, (ParseFace_frame s _).2]
        exact h
      · exact h
  · exact h

theorem CountInv_Ingest (lib : StdLib) (lines : List (List Char)) :
    ∀ s : ObjParser, CountInv s → CountInv (Ingest lib s lines).2 := by
  induction lines with
  | nil => intro s h; exact h
  | cons l rest ih =>
    intro s h
    have hl := CountInv_ParseLine lib s l h
    rw [Ingest.eq_2]
    split
    · rename_i s1 heq
      rw [heq] at hl
      exact ih s1 hl
    · exact hl

theorem ParseLine_ok_vertices (lib : StdLib) (s s1 : ObjParser) (line : List Char)
    (h : ParseLine lib s line = (Outcome.returned Status.kOk, s1)) :
    (isVertexLine line = true ∧ ∃ v : ℚ × ℚ × ℚ, extract3 lib (line.drop 2) = some v ∧
      s1.vertices_ = s.vertices_ ++ [v.1, v.2.1, v.2.2]) ∨
    (isVertexLine line = false ∧ s1.vertices_ = s.vertices_) := by
  unfold ParseLine at h
  split at h
  · rename_i hlen
    split at h
    · rename_i hv
      left
      refine ⟨by simp [isVertexLine, hv]; omega, ?_⟩
      unfold ParseVertex at h
      split at h
      · rename_i x y z hx
        simp only [Prod.mk.injEq, true_and] at h
        exact ⟨(x, y, z), hx, by rw [← h]⟩
      · simp at h
    · rename_i hv
      right
      refine ⟨by simp [isVertexLine, hv], ?_⟩
      split at h
      · have := (ParseFace_frame s (line.drop 2)).1
        rw [h] at this
        exact this
      · simp only [Prod.mk.injEq, true_and] at h
        rw [h]
  · rename_i hlen
    right
    refine ⟨by simp [isVertexLine]; omega, ?_⟩
    simp only [Prod.mk.injEq, true_and] at h
    rw [h]

theorem Ingest_ok_vertices (lib : StdLib) (lines : List (List Char)) :
    ∀ s s1 : ObjParser, Ingest lib s lines = (Outcome.returned Status.kOk, s1) →
      ∃ vs : List (ℚ × ℚ × ℚ),
        (lines.filter isVertexLine).map (fun l => extract3 lib (l.drop 2)) = vs.map some ∧
        s1.vertices_ = s.vertices_ ++ vs.flatMap (fun v => [v.1, v.2.1, v.2.2]) := by
  induction lines with
  | nil =>
    intro s s1 h
    refine ⟨[], rfl, ?_⟩
    have := congrArg Prod.snd h
    rw [Ingest] at this
    simp only at this
    simp [this]
  | cons l rest ih =>
    intro s s1 h
    rw [Ingest.eq_2] at h
    split at h
    · rename_i s2 heq
      obtain ⟨vs, hvs, hv⟩ := ih s2 s1 h
      rcases ParseLine_ok_vertices lib s s2 l heq with ⟨hl, v, hx, h2⟩ | ⟨hl, h2⟩
      · refine ⟨v :: vs, ?_, ?_⟩
        · simp [List.filter_cons, hl, hx, hvs]
        · rw [hv, h2]
          simp
      · refine ⟨vs, ?_, ?_⟩
        · simp [List.filter_cons, hl, hvs]
        · rw [hv, h2]
    · rename_i r hne
      exact absurd h (hne s1)

theorem triples_getD (vs : List (ℚ × ℚ × ℚ)) : ∀ i, i < vs.length →
    some (vs.getD i (0, 0, 0)) =
      some ((vs.flatMap (fun v => [v.1, v.2.1, v.2.2])).getD (3 * i) 0,
        (vs.flatMap (fun v => [v.1, v.2.1, v.2.2])).getD (3 * i + 1) 0,
        (vs.flatMap (fun v => [v.1, v.2.1, v.2.2])).getD (3 * i + 2) 0) := by
  induction vs with
  | nil => intro i h; simp at h
  | cons v rest ih =>
    intro i h
    cases i with
    | zero => simp
    | succ k =>
      have hk : k < rest.length := by simpa using h
      have e0 : 3 * (k + 1) = (3 * k) + 1 + 1 + 1 := by ring
      have e1 : 3 * (k + 1) + 1 = (3 * k + 1) + 1 + 1 + 1 := by ring
      have e2 : 3 * (k + 1) + 2 = (3 * k + 2) + 1 + 1 + 1 := by ring
      rw [List.getD_cons_succ, ih k hk, e1, e2, e0]
      simp only [List.flatMap_cons, List.cons_append, List.nil_append, List.getD_cons_succ]

theorem length_triples (vs : List (ℚ × ℚ × ℚ)) :
    (vs.flatMap (fun v => [v.1, v.2.1, v.2.2])).length = 3 * vs.length := by
  induction vs with
  | nil => rfl
  | cons x xs ih =>
    simp only [List.flatMap_cons, List.length_append, List.length_cons, List.length_nil, ih]
    omega

theorem ParseFile_ok_Ingest (lib : StdLib) (s : ObjParser) (content : List Char)
    (h : (ParseFile lib s (some content)).1 = Outcome.returned Status.kOk) :
    ∃ s1, Ingest lib (ClearData s) (getlines content) = (Outcome.returned Status.kOk, s1) ∧
      ParseFile lib s (some content) =
        (Outcome.returned Status.kOk, { s1 with vectors_set_ := [] }) := by
  rcases ParseFile_cases lib s (some content) with ⟨hc, -⟩ | ⟨c, -, -, he⟩ | ⟨c, s1, -, -, -, he⟩ |
    ⟨c, st, s1, hc, -, hI, he⟩
  · simp at hc
  · rw [he] at h; simp at h
  · rw [he] at h; simp at h
  · simp only [Option.some.injEq] at hc
    subst hc
    rcases Finish_cases st s1 with ⟨hf, hst, -, -⟩ | ⟨st2, hst2, hf, -⟩
    · subst hst
      exact ⟨s1, hI, by rw [he, hf]⟩
    · rw [he, hf] at h
      simp only [Outcome.returned.injEq] at h
      exact absurd h hst2

/-- C8. For every file on which `ParseFile` returns `kOk`, with `V` the number
of vertex lines of the file: the vertex list has length `3 * V`; positions
`3i`, `3i+1`, `3i+2` hold the three numbers extracted from the `i`-th vertex
line, in file order; and after every number of ingested lines, as at the end,
the length of the vertex list is three times `vertices_count_`. -/
theorem ParseFile_vertex_list (lib : StdLib) (s : ObjParser) (content : List Char)
    (h : (ParseFile lib s (some content)).1 = Outcome.returned Status.kOk) :
    (GetVertex (ParseFile lib s (some content)).2).length =
      3 * ((getlines content).filter isVertexLine).length ∧
    (∀ i, i < ((getlines content).filter isVertexLine).length →
      extract3 lib ((((getlines content).filter isVertexLine).getD i []).drop 2) =
        some ((GetVertex (ParseFile lib s (some content)).2).getD (3 * i) 0,
          (GetVertex (ParseFile lib s (some content)).2).getD (3 * i + 1) 0,
          (GetVertex (ParseFile lib s (some content)).2).getD (3 * i + 2) 0)) ∧
    (∀ k, (Ingest lib (ClearData s) ((getlines content).take k)).2.vertices_.length =
      3 * (Ingest lib (ClearData s) ((getlines content).take k)).2.vertices_count_) ∧
    (ParseFile lib s (some content)).2.vertices_.length =
      3 * (ParseFile lib s (some content)).2.vertices_count_ := by
  obtain ⟨s1, hI, hP⟩ := ParseFile_ok_Ingest lib s content h
  obtain ⟨vs, hvs, hv⟩ := Ingest_ok_vertices lib _ _ _ hI
  have hclear : CountInv (ClearData s) := rfl
  have hv2 : s1.vertices_ = vs.flatMap (fun v => [v.1, v.2.1, v.2.2]) := by
    rw [hv]; rfl
  have hlen : ((getlines content).filter isVertexLine).length = vs.length := by
    have := congrArg List.length hvs
    simpa using this
  rw [hP]
  simp only [GetVertex]
  refine ⟨?_, ?_, ?_, ?_⟩
  · rw [hv2, length_triples, hlen]
  · intro i hi
    have hi2 : i < vs.length := by omega
    have h1 := congrArg (fun l => l[i]?) hvs
    simp only [List.getElem?_map, List.getElem?_eq_getElem hi, List.getElem?_eq_getElem hi2,
      Option.map_some'] at h1
    rw [List.getD_eq_getElem _ _ hi, Option.some.inj h1, hv2, ← triples_getD vs i hi2,
      List.getD_eq_getElem _ _ hi2]
  · intro k
    exact CountInv_Ingest lib _ _ hclear
  · have := CountInv_Ingest lib (getlines content) _ hclear
    rw [hI] at this
    exact this

/-- The preceding theorem applied to a concrete input. -/
theorem ParseFile_vertex_list_witness :
    (ParseFile decimalLib usedParser (some sharedEdgeFile)).1 = Outcome.returned Status.kOk ∧
    (GetVertex (ParseFile decimalLib usedParser (some sharedEdgeFile)).2).length =
      3 * ((getlines sharedEdgeFile).filter isVertexLine).length ∧
    ((getlines sharedEdgeFile).filter isVertexLine).length = 4 :=
  ⟨by decide,
    (ParseFile_vertex_list decimalLib usedParser sharedEdgeFile (by decide)).1, by decide⟩

/-! ## Index resolution -/

/-- The entries of the scratch buffer of an accepted face with `N ≥ 1` tokens:
the buffer has length `2 * N`, and for each `j` positions `2j` and `2j+1` hold
the resolved indices of token `j` and of token `j+1` (of token 0 for the last). -/
theorem FaceBuffer_entries (s : ObjParser) (data : List Char) (buff : List Nat)
    (hacc : FaceBuffer s data = Except.ok buff) (hN : 1 ≤ (tokens data).length) :
    ∃ rs : List Int, (tokens data).map (ResolveIndex s) = rs.map Except.ok ∧
      rs.length = (tokens data).length ∧ buff.length = 2 * rs.length ∧
      ∀ j, j < rs.length →
        buff.getD (2 * j) 0 = toUnsigned (rs.getD j 0) ∧
        buff.getD (2 * j + 1) 0 = toUnsigned (rs.getD ((j + 1) % rs.length) 0) := by
  have hloop : ∃ rs : List Int, (tokens data).map (ResolveIndex s) = rs.map Except.ok := by
    unfold FaceBuffer at hacc
    split at hacc
    · simp at hacc
    · rename_i loc hl
      exact FaceLoop_ok_inv s _ _ _ hl
  obtain ⟨rs, hrs⟩ := hloop
  have hlen : rs.length = (tokens data).length := by
    have := congrArg List.length hrs
    simpa using this.symm
  cases rs with
  | nil => simp at hlen; omega
  | cons r rest =>
    have hb := FaceBuffer_accepted s data r rest hrs
    rw [hacc] at hb
    simp only [Except.ok.injEq] at hb
    have hblen : buff.length = 2 * (r :: rest).length := by
      rw [hb]
      simp only [List.length_cons, List.length_append, List.length_nil,
        length_flatMap_twice toUnsigned rest]
      omega
    refine ⟨r :: rest, hrs, hlen, hblen, ?_⟩
    intro j hj
    have h1 := pairsOf_getElem? buff j (by omega)
    have h2 := cycle_pair_getElem? toUnsigned r rest j hj
    rw [← pairsOf_chain toUnsigned rest (toUnsigned r) (toUnsigned r), ← hb, h1] at h2
    simp only [Option.some.injEq, Prod.mk.injEq] at h2
    exact h2

theorem back_index (j N : Nat) (hj : j < N) : ((j + N - 1) % N + 1) % N = j := by
  by_cases h0 : j = 0
  · subst h0
    have e1 : (0 + N - 1) % N = N - 1 := by
      rw [Nat.zero_add]
      exact Nat.mod_eq_of_lt (by omega)
    have e2 : N - 1 + 1 = N := by omega
    rw [e1, e2, Nat.mod_self]
  · have e1 : j + N - 1 = (j - 1) + N := by omega
    have e2 : (j - 1) % N = j - 1 := Nat.mod_eq_of_lt (by omega)
    have e3 : j - 1 + 1 = j := by omega
    rw [e1, Nat.add_mod_right, e2, e3, Nat.mod_eq_of_lt hj]

theorem getD_map_ok (toks : List (List Char)) (f : List Char → Except Outcome Int)
    (rs : List Int) (h : toks.map f = rs.map Except.ok) (j : Nat) (hj : j < toks.length) :
    f (toks.getD j []) = Except.ok (rs.getD j 0) := by
  have hj2 : j < rs.length := by
    have := congrArg List.length h
    simp at this
    omega
  have h1 := congrArg (fun l => l[j]?) h
  simp only [List.getElem?_map, List.getElem?_eq_getElem hj, List.getElem?_eq_getElem hj2,
    Option.map_some', Option.some.injEq] at h1
  rw [List.getD_eq_getElem _ _ hj, List.getD_eq_getElem _ _ hj2, h1]

/-- The two buffer positions of token `j` of an accepted face hold its resolved
index, reduced to `unsigned`. -/
theorem FaceBuffer_token (s : ObjParser) (data : List Char) (buff : List Nat) (j : Nat)
    (n : Int) (hacc : FaceBuffer s data = Except.ok buff) (hj : j < (tokens data).length)
    (htok : stoi ((tokens data).getD j []) = StoiResult.value n) :
    n.natAbs ≤ s.vertices_.length ∧
    ResolveIndex s ((tokens data).getD j []) = Except.ok (normalizeIndex s n) ∧
    buff.getD (2 * j) 0 = toUnsigned (normalizeIndex s n) ∧
    buff.getD (2 * ((j + (tokens data).length - 1) % (tokens data).length) + 1) 0 =
      toUnsigned (normalizeIndex s n) := by
  obtain ⟨rs, hrs, hlen, -, hent⟩ := FaceBuffer_entries s data buff hacc (by omega)
  have hres := getD_map_ok _ _ rs hrs j hj
  obtain ⟨m, hm, hb, hr⟩ := ResolveIndex_ok s _ _ hres
  rw [htok] at hm
  simp only [StoiResult.value.injEq] at hm
  subst hm
  refine ⟨hb, by rw [hres, hr], ?_, ?_⟩
  · rw [(hent j (by omega)).1, hr]
  · have hi : (j + (tokens data).length - 1) % (tokens data).length < rs.length := by
      rw [hlen]
      exact Nat.mod_lt _ (by omega)
    have hback : ((j + (tokens data).length - 1) % (tokens data).length + 1) % rs.length = j := by
      rw [hlen]
      exact back_index j _ hj
    rw [(hent _ hi).2, hback, hr]

/-- What `InsertUniqueVector` appends to the edge list: some of the pairs of
its buffer, in order, each as two values. -/
theorem InsertLoop_appends (data : List Nat) : ∀ s : ObjParser,
    ∃ ps : List (Nat × Nat), ps.Sublist (pairsOf data) ∧
      (InsertLoop s data).edges_ = s.edges_ ++ ps.flatMap (fun p => [p.1, p.2]) := by
  induction data using pairsOf.induct with
  | case1 a b rest ih =>
    intro s
    obtain ⟨ps, hsub, he⟩ := ih (InsertPair s a b)
    rw [InsertLoop, he]
    unfold InsertPair
    split
    · exact ⟨(a, b) :: ps, by simpa [pairsOf] using hsub, by simp⟩
    · exact ⟨ps, by simpa [pairsOf] using List.Sublist.cons _ hsub, rfl⟩
  | case2 l hl =>
    intro s
    match l, hl with
    | [], _ => exact ⟨[], by simp, by simp [InsertLoop]⟩
    | [c], _ => exact ⟨[], by simp, by simp [InsertLoop]⟩
    | x :: y :: r, hl => exact absurd rfl (hl x y r)

theorem ParseFace_appends (s : ObjParser) (data : List Char) (buff : List Nat)
    (hacc : FaceBuffer s data = Except.ok buff) :
    ∃ ps : List (Nat × Nat), ps.Sublist (pairsOf buff) ∧
      (ParseFace s data).2.edges_ = s.edges_ ++ ps.flatMap (fun p => [p.1, p.2]) := by
  simp only [ParseFace, hacc, InsertUniqueVector]
  split
  · exact InsertLoop_appends buff s
  · exact ⟨[], by simp, by simp⟩

/-- C10. For every face index token `k ≥ 1` of a fragment that `ParseFace`
accepts, `k` does not exceed the number of stored coordinate values, and the
index stored for the token is `k - 1`: it is what the token resolves to and
what the scratch buffer holds at the token's two positions, and the edge list
grows by pairs of the scratch buffer only. -/
theorem positive_index_stored (s : ObjParser) (data : List Char) (buff : List Nat)
    (j : Nat) (k : Int) (hacc : FaceBuffer s data = Except.ok buff)
    (hj : j < (tokens data).length)
    (htok : stoi ((tokens data).getD j []) = StoiResult.value k) (hk : 1 ≤ k) :
    k.natAbs ≤ s.vertices_.length ∧
    ResolveIndex s ((tokens data).getD j []) = Except.ok (k - 1) ∧
    ((buff.getD (2 * j) 0 : Nat) : Int) = k - 1 ∧
    ((buff.getD (2 * ((j + (tokens data).length - 1) % (tokens data).length) + 1) 0 : Nat) :
      Int) = k - 1 ∧
    ∃ ps : List (Nat × Nat), ps.Sublist (pairsOf buff) ∧
      (ParseFace s data).2.edges_ = s.edges_ ++ ps.flatMap (fun p => [p.1, p.2]) := by
  obtain ⟨hb, hres, h1, h2⟩ := FaceBuffer_token s data buff j k hacc hj htok
  have hnorm : normalizeIndex s k = k - 1 := by
    unfold normalizeIndex
    rw [if_neg (by omega)]
  have hrange := stoi_value_range _ _ htok
  have hu : ((toUnsigned (k - 1) : Nat) : Int) = k - 1 := by
    unfold toUnsigned
    rw [Int.toNat_of_nonneg (Int.emod_nonneg _ (by norm_num))]
    exact Int.emod_eq_of_lt (by omega) (by omega)
  rw [hnorm] at hres h1 h2
  exact ⟨hb, hres, by rw [h1, hu], by rw [h2, hu], ParseFace_appends s data buff hacc⟩

/-- The preceding theorem applied to a concrete input. -/
theorem positive_index_stored_witness :
    FaceBuffer afterTriangle "1 3 4".toList = Except.ok [0, 2, 2, 3, 3, 0] ∧
    1 < (tokens "1 3 4".toList).length ∧
    stoi ((tokens "1 3 4".toList).getD 1 []) = StoiResult.value 3 ∧ (1 : Int) ≤ 3 ∧
    (([0, 2, 2, 3, 3, 0].getD (2 * 1) 0 : Nat) : Int) = 3 - 1 :=
  ⟨rfl, by decide, by decide, by decide,
    (positive_index_stored afterTriangle "1 3 4".toList [0, 2, 2, 3, 3, 0] 1 3 rfl
      (by decide) (by decide) (by decide)).2.2.1⟩

theorem Reached_oneVertex : Reached decimalLib oneVertex :=
  ⟨usedParser, getlines "v 0 0 0\n".toList, by decide⟩

/-- C9 (as stated, refuted). On `v 0 0 0` followed by `f -3 1` the token `-3`
passes the bound check (3 coordinate values are stored) with one vertex parsed;
`ParseFile` returns `kOk` and the value stored for the token is 4294967294, not
`vertex_count - k = 1 - 3`. -/
theorem negative_index_wraps :
    ParseFile decimalLib usedParser (some negativeWrapFile) =
      (Outcome.returned Status.kOk,
        { vectors_set_ := [], vertices_ := [0, 0, 0], edges_ := [4294967294, 0],
          vertices_count_ := 1, x_coef_ := 0, y_coef_ := 0, z_coef_ := 0 }) ∧
    Reached decimalLib oneVertex ∧
    FaceBuffer oneVertex "-3 1".toList = Except.ok [4294967294, 0, 0, 4294967294] ∧
    stoi ((tokens "-3 1".toList).getD 0 []) = StoiResult.value (-3) ∧
    (([4294967294, 0, 0, 4294967294].getD (2 * 0) 0 : Nat) : Int) ≠
      (oneVertex.vertices_count_ : Int) - 3 :=
  ⟨by decide, Reached_oneVertex, rfl, by decide, by decide⟩

/-- C9 (amended). For every face index token `-k`, `k ≥ 1`, of a fragment that
`ParseFace` accepts, `k` does not exceed the number of stored coordinate
values, the token resolves to `vertex_count - k`, and the value stored for it at
its two positions of the scratch buffer is `(vertex_count - k) mod 2^32`; this
is the 0-based index `vertex_count - k` whenever `k ≤ vertex_count` and
`vertex_count - k < 2^32`.  The edge list grows by pairs of the scratch buffer
only. -/
theorem negative_index_stored (s : ObjParser) (data : List Char) (buff : List Nat)
    (j : Nat) (k : Int) (hacc : FaceBuffer s data = Except.ok buff)
    (hj : j < (tokens data).length)
    (htok : stoi ((tokens data).getD j []) = StoiResult.value (-k)) (hk : 1 ≤ k) :
    k.natAbs ≤ s.vertices_.length ∧
    ResolveIndex s ((tokens data).getD j []) = Except.ok ((s.vertices_count_ : Int) - k) ∧
    ((buff.getD (2 * j) 0 : Nat) : Int) = ((s.vertices_count_ : Int) - k) % 4294967296 ∧
    ((buff.getD (2 * ((j + (tokens data).length - 1) % (tokens data).length) + 1) 0 : Nat) :
      Int) = ((s.vertices_count_ : Int) - k) % 4294967296 ∧
    (k ≤ (s.vertices_count_ : Int) → (s.vertices_count_ : Int) - k < 4294967296 →
      ((buff.getD (2 * j) 0 : Nat) : Int) = (s.vertices_count_ : Int) - k ∧
      ((buff.getD (2 * ((j + (tokens data).length - 1) % (tokens data).length) + 1) 0 : Nat) :
        Int) = (s.vertices_count_ : Int) - k) ∧
    ∃ ps : List (Nat × Nat), ps.Sublist (pairsOf buff) ∧
      (ParseFace s data).2.edges_ = s.edges_ ++ ps.flatMap (fun p => [p.1, p.2]) := by
  obtain ⟨hb, hres, h1, h2⟩ := FaceBuffer_token s data buff j (-k) hacc hj htok
  have hnorm : normalizeIndex s (-k) = (s.vertices_count_ : Int) - k := by
    unfold normalizeIndex
    rw [if_pos (by omega)]
    omega
  have hu : ((toUnsigned ((s.vertices_count_ : Int) - k) : Nat) : Int) =
      ((s.vertices_count_ : Int) - k) % 4294967296 := by
    unfold toUnsigned
    exact Int.toNat_of_nonneg (Int.emod_nonneg _ (by norm_num))
  rw [hnorm] at hres h1 h2
  refine ⟨by simpa using hb, hres, by rw [h1, hu], by rw [h2, hu], ?_,
    ParseFace_appends s data buff hacc⟩
  intro hle hlt
  have hsmall : ((s.vertices_count_ : Int) - k) % 4294967296 = (s.vertices_count_ : Int) - k :=
    Int.emod_eq_of_lt (by omega) hlt
  exact ⟨by rw [h1, hu, hsmall], by rw [h2, hu, hsmall]⟩

/-- The preceding theorem applied to a concrete input. -/
theorem negative_index_stored_witness :
    FaceBuffer afterTriangle "1 -1 -2".toList = Except.ok [0, 3, 3, 2, 2, 0] ∧
    1 < (tokens "1 -1 -2".toList).length ∧
    stoi ((tokens "1 -1 -2".toList).getD 1 []) = StoiResult.value (-1) ∧ (1 : Int) ≤ 1 ∧
    (([0, 3, 3, 2, 2, 0].getD (2 * 1) 0 : Nat) : Int) =
      ((afterTriangle.vertices_count_ : Int) - 1) % 4294967296 :=
  ⟨rfl, by decide, by decide, by decide,
    (negative_index_stored afterTriangle "1 -1 -2".toList [0, 3, 3, 2, 2, 0] 1 1 rfl
      (by decide) (by decide) (by decide)).2.2.1⟩

/-! ## Independence of the prior state, a worked file, ignored lines -/

theorem ParseFile_prior_state (lib : StdLib) (s s1 : ObjParser) (file : Option (List Char)) :
    ParseFile lib s file = ParseFile lib s1 file := by
  have hc : ClearData s = ClearData s1 := rfl
  unfold ParseFile
  rw [hc]

/-- C13. No leaked state: for every file and any two prior parser states,
`ParseFile` ends the same way and leaves the same object, so the status, the
vertex list, the edge list and the normalization coefficient are the same; the
result depends on the file only. -/
theorem ParseFile_no_leaked_state (lib : StdLib) (s s1 : ObjParser)
    (file : Option (List Char)) :
    ParseFile lib s file = ParseFile lib s1 file ∧
    (ParseFile lib s file).1 = (ParseFile lib s1 file).1 ∧
    GetVertex (ParseFile lib s file).2 = GetVertex (ParseFile lib s1 file).2 ∧
    GetEdges (ParseFile lib s file).2 = GetEdges (ParseFile lib s1 file).2 ∧
    GetNormalizeCoef (ParseFile lib s file).2 = GetNormalizeCoef (ParseFile lib s1 file).2 := by
  have h := ParseFile_prior_state lib s s1 file
  exact ⟨h, by rw [h], by rw [h], by rw [h], by rw [h]⟩

theorem ParseLine_vertex_ok (lib : StdLib) (s : ObjParser) (line : List Char) (x y z : ℚ)
    (hline : isVertexLine line = true) (hx : extract3 lib (line.drop 2) = some (x, y, z)) :
    ParseLine lib s line =
      (Outcome.returned Status.kOk,
        { s with
          vertices_ := s.vertices_ ++ [x, y, z]
          x_coef_ := if lib.abs x > s.x_coef_ then lib.abs x else s.x_coef_
          y_coef_ := if lib.abs y > s.y_coef_ then lib.abs y else s.y_coef_
          z_coef_ := if lib.abs z > s.z_coef_ then lib.abs z else s.z_coef_
          vertices_count_ := s.vertices_count_ + 1 }) := by
  have hv : 2 < line.length ∧ firstToken line = ['v'] := by
    simpa [isVertexLine] using hline
  simp [ParseLine, hv.1, hv.2, ParseVertex, hx]

theorem ParseLine_face (lib : StdLib) (s : ObjParser) (line : List Char)
    (hline : isFaceLine line = true) : ParseLine lib s line = ParseFace s (line.drop 2) := by
  have hf : 2 < line.length ∧ firstToken line = ['f'] := by
    simpa [isFaceLine] using hline
  simp only [ParseLine, hf.1, hf.2, if_true]
  rw [if_neg (by decide)]

theorem Ingest_triangle (lib : StdLib)
    (h1 : extract3 lib "0 0 0".toList = some (0, 0, 0))
    (h2 : extract3 lib "1 0 0".toList = some (1, 0, 0))
    (h3 : extract3 lib "0 1 0".toList = some (0, 1, 0))
    (ha0 : lib.abs 0 = 0) (ha1 : lib.abs 1 = 1) :
    Ingest lib (ClearData usedParser) (getlines triangleFile) =
      (Outcome.returned Status.kOk,
        { vectors_set_ := [(2, 0), (1, 2), (0, 1)], vertices_ := [0, 0, 0, 1, 0, 0, 0, 1, 0],
          edges_ := [0, 1, 1, 2, 2, 0], vertices_count_ := 3,
          x_coef_ := 1, y_coef_ := 1, z_coef_ := 0 }) := by
  have hl : getlines triangleFile =
      ["v 0 0 0".toList, "v 1 0 0".toList, "v 0 1 0".toList, "f 1 2 3".toList] := by decide
  have p1 : ParseLine lib (ClearData usedParser) "v 0 0 0".toList =
      (Outcome.returned Status.kOk,
        { vectors_set_ := [], vertices_ := [0, 0, 0], edges_ := [], vertices_count_ := 1,
          x_coef_ := 0, y_coef_ := 0, z_coef_ := 0 }) := by
    rw [ParseLine_vertex_ok lib _ "v 0 0 0".toList 0 0 0 (by decide) h1]
    simp only [ClearData, ha0]
    norm_num
  have p2 : ParseLine lib
      { vectors_set_ := [], vertices_ := [0, 0, 0], edges_ := [], vertices_count_ := 1,
        x_coef_ := 0, y_coef_ := 0, z_coef_ := 0 } "v 1 0 0".toList =
      (Outcome.returned Status.kOk,
        { vectors_set_ := [], vertices_ := [0, 0, 0, 1, 0, 0], edges_ := [],
          vertices_count_ := 2, x_coef_ := 1, y_coef_ := 0, z_coef_ := 0 }) := by
    rw [ParseLine_vertex_ok lib _ "v 1 0 0".toList 1 0 0 (by decide) h2]
    simp only [ha0, ha1]
    norm_num
  have p3 : ParseLine lib
      { vectors_set_ := [], vertices_ := [0, 0, 0, 1, 0, 0], edges_ := [],
        vertices_count_ := 2, x_coef_ := 1, y_coef_ := 0, z_coef_ := 0 } "v 0 1 0".toList =
      (Outcome.returned Status.kOk,
        { vectors_set_ := [], vertices_ := [0, 0, 0, 1, 0, 0, 0, 1, 0], edges_ := [],
          vertices_count_ := 3, x_coef_ := 1, y_coef_ := 1, z_coef_ := 0 }) := by
    rw [ParseLine_vertex_ok lib _ "v 0 1 0".toList 0 1 0 (by decide) h3]
    simp only [ha0, ha1]
    norm_num
  have p4 : ParseLine lib
      { vectors_set_ := [], vertices_ := [0, 0, 0, 1, 0, 0, 0, 1, 0], edges_ := [],
        vertices_count_ := 3, x_coef_ := 1, y_coef_ := 1, z_coef_ := 0 } "f 1 2 3".toList =
      (Outcome.returned Status.kOk,
        { vectors_set_ := [(2, 0), (1, 2), (0, 1)], vertices_ := [0, 0, 0, 1, 0, 0, 0, 1, 0],
          edges_ := [0, 1, 1, 2, 2, 0], vertices_count_ := 3,
          x_coef_ := 1, y_coef_ := 1, z_coef_ := 0 }) := by
    rw [ParseLine_face lib _ "f 1 2 3".toList (by decide)]
    decide
  rw [hl]
  simp only [Ingest, p1, p2, p3, p4]

theorem ParseFile_triangle (lib : StdLib) (s : ObjParser)
    (h1 : extract3 lib "0 0 0".toList = some (0, 0, 0))
    (h2 : extract3 lib "1 0 0".toList = some (1, 0, 0))
    (h3 : extract3 lib "0 1 0".toList = some (0, 1, 0))
    (ha0 : lib.abs 0 = 0) (ha1 : lib.abs 1 = 1) :
    ParseFile lib s (some triangleFile) =
      (Outcome.returned Status.kOk,
        { vectors_set_ := [], vertices_ := [0, 0, 0, 1, 0, 0, 0, 1, 0],
          edges_ := [0, 1, 1, 2, 2, 0], vertices_count_ := 3,
          x_coef_ := 1, y_coef_ := 1, z_coef_ := 0 }) := by
  rw [ParseFile_prior_state lib s usedParser,
    ParseFile_eq_Finish lib usedParser triangleFile _ _ (by decide)
      (Ingest_triangle lib h1 h2 h3 ha0 ha1)]
  rfl

/-- C12. On the four-line input `v 0 0 0`, `v 1 0 0`, `v 0 1 0`, `f 1 2 3`,
whatever the prior state, with a library that reads the three coordinate
fragments as the numbers written and whose `abs` maps 0 to 0 and 1 to 1:
`ParseFile` returns `kOk`, `GetVertex` is `[0,0,0,1,0,0,0,1,0]`, `GetEdges` is
`[0,1,1,2,2,0]` in that order and `GetNormalizeCoef` is `(1+1+0)/3 = 2/3`. -/
theorem ParseFile_triangleFile (lib : StdLib) (s : ObjParser)
    (h1 : extract3 lib "0 0 0".toList = some (0, 0, 0))
    (h2 : extract3 lib "1 0 0".toList = some (1, 0, 0))
    (h3 : extract3 lib "0 1 0".toList = some (0, 1, 0))
    (ha0 : lib.abs 0 = 0) (ha1 : lib.abs 1 = 1) :
    (ParseFile lib s (some triangleFile)).1 = Outcome.returned Status.kOk ∧
    GetVertex (ParseFile lib s (some triangleFile)).2 = [0, 0, 0, 1, 0, 0, 0, 1, 0] ∧
    GetEdges (ParseFile lib s (some triangleFile)).2 = [0, 1, 1, 2, 2, 0] ∧
    GetNormalizeCoef (ParseFile lib s (some triangleFile)).2 = (1 + 1 + 0) / 3 ∧
    GetNormalizeCoef (ParseFile lib s (some triangleFile)).2 = 2 / 3 := by
  rw [ParseFile_triangle lib s h1 h2 h3 ha0 ha1]
  refine ⟨rfl, rfl, rfl, ?_, ?_⟩ <;> norm_num [GetNormalizeCoef]

/-- The preceding theorem applied to a concrete input. -/
theorem ParseFile_triangleFile_witness :
    extract3 decimalLib "0 0 0".toList = some (0, 0, 0) ∧
    extract3 decimalLib "1 0 0".toList = some (1, 0, 0) ∧
    extract3 decimalLib "0 1 0".toList = some (0, 1, 0) ∧
    decimalLib.abs 0 = 0 ∧ decimalLib.abs 1 = 1 ∧
    (ParseFile decimalLib usedParser (some triangleFile)).1 = Outcome.returned Status.kOk ∧
    GetEdges (ParseFile decimalLib usedParser (some triangleFile)).2 = [0, 1, 1, 2, 2, 0] ∧
    GetNormalizeCoef (ParseFile decimalLib usedParser (some triangleFile)).2 = 2 / 3 :=
  ⟨by decide, by decide, by decide, by decide, by decide,
    (ParseFile_triangleFile decimalLib usedParser (by decide) (by decide) (by decide)
      (by decide) (by decide)).1,
    (ParseFile_triangleFile decimalLib usedParser (by decide) (by decide) (by decide)
      (by decide) (by decide)).2.2.1,
    (ParseFile_triangleFile decimalLib usedParser (by decide) (by decide) (by decide)
      (by decide) (by decide)).2.2.2.2⟩

theorem ParseLine_ignored (lib : StdLib) (s : ObjParser) (line : List Char)
    (h : line.length ≤ 2 ∨ (firstToken line ≠ ['v'] ∧ firstToken line ≠ ['f'])) :
    ParseLine lib s line = (Outcome.returned Status.kOk, s) := by
  unfold ParseLine
  rcases h with h | ⟨hv, hf⟩
  · rw [if_neg (by omega)]
  · rw [if_neg hv, if_neg hf]
    exact ite_self _

/-- C14. For every parser state and every line that has length at most 2 or
whose first whitespace-delimited token is neither `v` nor `f`, `ParseLine`
returns `kOk` and leaves the whole object unchanged: vertex list, edge list,
dedup set, vertex count and per-axis maxima. -/
theorem ParseLine_ignores_other_lines (lib : StdLib) (s : ObjParser) (line : List Char)
    (h : line.length ≤ 2 ∨ (firstToken line ≠ ['v'] ∧ firstToken line ≠ ['f'])) :
    (ParseLine lib s line).1 = Outcome.returned Status.kOk ∧
    (ParseLine lib s line).2 = s ∧
    (ParseLine lib s line).2.vertices_ = s.vertices_ ∧
    (ParseLine lib s line).2.edges_ = s.edges_ ∧
    (ParseLine lib s line).2.vectors_set_ = s.vectors_set_ ∧
    (ParseLine lib s line).2.vertices_count_ = s.vertices_count_ ∧
    (ParseLine lib s line).2.x_coef_ = s.x_coef_ ∧
    (ParseLine lib s line).2.y_coef_ = s.y_coef_ ∧
    (ParseLine lib s line).2.z_coef_ = s.z_coef_ := by
  rw [ParseLine_ignored lib s line h]
  exact ⟨rfl, rfl, rfl, rfl, rfl, rfl, rfl, rfl, rfl⟩

/-- The preceding theorem applied to a concrete input. -/
theorem ParseLine_ignores_other_lines_witness :
    ("vn 0 0 1".toList.length ≤ 2 ∨
      (firstToken "vn 0 0 1".toList ≠ ['v'] ∧ firstToken "vn 0 0 1".toList ≠ ['f'])) ∧
    (ParseLine decimalLib afterTriangle "vn 0 0 1".toList).1 = Outcome.returned Status.kOk ∧
    (ParseLine decimalLib afterTriangle "vn 0 0 1".toList).2 = afterTriangle :=
  ⟨Or.inr (by decide),
    (ParseLine_ignores_other_lines decimalLib afterTriangle "vn 0 0 1".toList
      (Or.inr (by decide))).1,
    (ParseLine_ignores_other_lines decimalLib afterTriangle "vn 0 0 1".toList
      (Or.inr (by decide))).2.1⟩

/-! ## The normalization coefficient -/

theorem triplesOf_append (v : List ℚ) (x y z : ℚ) (h : v.length % 3 = 0) :
    triplesOf (v ++ [x, y, z]) = triplesOf v ++ [(x, y, z)] := by
  induction v using triplesOf.induct with
  | case1 a b c rest ih =>
    have h2 : rest.length % 3 = 0 := by simp at h; omega
    simp [triplesOf, ih h2]
  | case2 l hl =>
    match l, hl, h with
    | [], _, _ => simp [triplesOf]
    | [a], _, h => simp at h
    | [a, b], _, h => simp at h
    | a :: b :: c :: r, hl, _ => exact absurd rfl (hl a b c r)

theorem runningMax_append (abs : ℚ → ℚ) (m : ℚ) (l : List ℚ) (x : ℚ) :
    runningMax abs m (l ++ [x]) =
      if abs x > runningMax abs m l then abs x else runningMax abs m l := by
  simp [runningMax, List.foldl_append]

theorem runningMax_spec (abs : ℚ → ℚ) (l : List ℚ) : ∀ m : ℚ,
    m ≤ runningMax abs m l ∧ (∀ x ∈ l, abs x ≤ runningMax abs m l) ∧
    (runningMax abs m l = m ∨ runningMax abs m l ∈ l.map abs) := by
  induction l with
  | nil => intro m; simp [runningMax]
  | cons a rest ih =>
    intro m
    have e : runningMax abs m (a :: rest) =
        runningMax abs (if abs a > m then abs a else m) rest := rfl
    obtain ⟨h1, h2, h3⟩ := ih (if abs a > m then abs a else m)
    rw [e]
    by_cases hc : abs a > m
    · rw [if_pos hc] at h1 h2 h3 ⊢
      refine ⟨le_trans (le_of_lt hc) h1, ?_, ?_⟩
      · intro x hx
        rcases List.mem_cons.1 hx with rfl | hx
        · exact h1
        · exact h2 x hx
      · right
        rcases h3 with h3 | h3
        · rw [h3]; simp
        · exact List.mem_cons_of_mem _ h3
    · rw [if_neg hc] at h1 h2 h3 ⊢
      refine ⟨h1, ?_, ?_⟩
      · intro x hx
        rcases List.mem_cons.1 hx with rfl | hx
        · exact le_trans (not_lt.1 hc) h1
        · exact h2 x hx
      · rcases h3 with h3 | h3
        · exact Or.inl h3
        · exact Or.inr (List.mem_cons_of_mem _ h3)

/-- From the sentinel -10 the running maximum over a non-empty list, with `abs`
the absolute value, is the maximum of the absolute values. -/
theorem runningMax_IsMaxOf (abs : ℚ → ℚ) (habs : ∀ x, abs x = |x|) (l : List ℚ)
    (hne : l ≠ []) : IsMaxOf (runningMax abs (-10) l) (l.map (fun x => |x|)) := by
  obtain ⟨-, h2, h3⟩ := runningMax_spec abs l (-10)
  have hfun : l.map abs = l.map (fun x => |x|) := List.map_congr_left (fun x _ => habs x)
  constructor
  · rcases h3 with h3 | h3
    · exfalso
      obtain ⟨a, rest, rfl⟩ := List.exists_cons_of_ne_nil hne
      have := h2 a (List.mem_cons_self _ _)
      rw [h3, habs] at this
      have := abs_nonneg a
      linarith
    · rw [← hfun]; exact h3
  · intro x hx
    obtain ⟨a, ha, rfl⟩ := List.mem_map.1 hx
    rw [← habs]
    exact h2 a ha

theorem CoefInv_ClearData (lib : StdLib) (s : ObjParser) : CoefInv lib (ClearData s) :=
  ⟨rfl, rfl, rfl, rfl⟩

theorem InsertPair_coefs (s : ObjParser) (a b : Nat) :
    (InsertPair s a b).x_coef_ = s.x_coef_ ∧ (InsertPair s a b).y_coef_ = s.y_coef_ ∧
    (InsertPair s a b).z_coef_ = s.z_coef_ := by
  unfold InsertPair
  split <;> exact ⟨rfl, rfl, rfl⟩

theorem InsertLoop_coefs (data : List Nat) : ∀ s : ObjParser,
    (InsertLoop s data).x_coef_ = s.x_coef_ ∧ (InsertLoop s data).y_coef_ = s.y_coef_ ∧
    (InsertLoop s data).z_coef_ = s.z_coef_ := by
  induction data using pairsOf.induct with
  | case1 a b rest ih =>
    intro s
    rw [InsertLoop, (ih _).1, (ih _).2.1, (ih _).2.2]
    exact InsertPair_coefs s a b
  | case2 l hl =>
    intro s
    match l, hl with
    | [], _ => exact ⟨rfl, rfl, rfl⟩
    | [c], _ => exact ⟨rfl, rfl, rfl⟩
    | x :: y :: r, hl => exact absurd rfl (hl x y r)

theorem ParseFace_coefs (s : ObjParser) (data : List Char) :
    (ParseFace s data).2.x_coef_ = s.x_coef_ ∧ (ParseFace s data).2.y_coef_ = s.y_coef_ ∧
    (ParseFace s data).2.z_coef_ = s.z_coef_ := by
  unfold ParseFace
  split
  · exact ⟨rfl, rfl, rfl⟩
  · unfold InsertUniqueVector
    split
    · exact InsertLoop_coefs _ s
    · exact ⟨rfl, rfl, rfl⟩

theorem CoefInv_ParseLine (lib : StdLib) (s : ObjParser) (line : List Char)
    (h : CoefInv lib s) : CoefInv lib (ParseLine lib s line).2 := by
  unfold ParseLine
  split
  · split
    · unfold ParseVertex
      split
      · rename_i x y z hx
        refine ⟨?_, ?_, ?_, ?_⟩
        · have := h.whole
          simp only [List.length_append, List.length_cons, List.length_nil]
          omega
        · simp only [triplesOf_append _ x y z h.whole, List.map_append, List.map_cons,
            List.map_nil, runningMax_append, ← h.x_eq]
        · simp only [triplesOf_append _ x y z h.whole, List.map_append, List.map_cons,
            List.map_nil, runningMax_append, ← h.y_eq]
        · simp only [triplesOf_append _ x y z h.whole, List.map_append, List.map_cons,
            List.map_nil, runningMax_append, ← h.z_eq]
      · exact CoefInv_ClearData lib s
    · split
      · have hv := (ParseFace_frame s (line.drop 2)).1
        have hc := ParseFace_coefs s (line.drop 2)
        exact ⟨by rw [hv]; exact h.whole, by rw [hv, hc.1]; exact h.x_eq,
          by rw [hv, hc.2.1]; exact h.y_eq, by rw [hv, hc.2.2]; exact h.z_eq⟩
      · exact h
  · exact h

theorem CoefInv_Ingest (lib : StdLib) (lines : List (List Char)) :
    ∀ s : ObjParser, CoefInv lib s → CoefInv lib (Ingest lib s lines).2 := by
  induction lines with
  | nil => intro s h; exact h
  | cons l rest ih =>
    intro s h
    have hl := CoefInv_ParseLine lib s l h
    rw [Ingest.eq_2]
    split
    · rename_i s1 heq
      rw [heq] at hl
      exact ih s1 hl
    · exact hl

theorem triplesOf_ne_nil (v : List ℚ) (hne : v ≠ []) (h : v.length % 3 = 0) :
    triplesOf v ≠ [] := by
  match v, hne, h with
  | [], hne, _ => exact absurd rfl hne
  | [a], _, h => simp at h
  | [a, b], _, h => simp at h
  | a :: b :: c :: r, _, _ => simp [triplesOf]

theorem ParseFile_ok_nonempty (lib : StdLib) (s : ObjParser) (content : List Char)
    (h : (ParseFile lib s (some content)).1 = Outcome.returned Status.kOk) :
    ∃ s1, Ingest lib (ClearData s) (getlines content) = (Outcome.returned Status.kOk, s1) ∧
      ParseFile lib s (some content) =
        (Outcome.returned Status.kOk, { s1 with vectors_set_ := [] }) ∧
      s1.vertices_ ≠ [] ∧ s1.edges_ ≠ [] := by
  obtain ⟨s1, hI, hP⟩ := ParseFile_ok_Ingest lib s content h
  refine ⟨s1, hI, hP, ?_⟩
  have hscan : ReserveData (getlines content) = Status.kOk := by
    rcases ParseFile_cases lib s (some content) with ⟨hc, -⟩ | ⟨c, -, -, he⟩ | ⟨c, s2, -, -, -, he⟩ |
      ⟨c, st, s2, hc, hr, -, -⟩
    · simp at hc
    · rw [he] at h; simp at h
    · rw [he] at h; simp at h
    · simp only [Option.some.injEq] at hc
      subst hc
      exact hr
  have hF := ParseFile_eq_Finish lib s content _ _ hscan hI
  rcases Finish_cases Status.kOk s1 with ⟨-, -, hv, hedge⟩ | ⟨st, hst, hf, -⟩
  · exact ⟨hv, hedge⟩
  · rw [hF, hf] at h
    simp only [Outcome.returned.injEq] at h
    exact absurd h hst

/-- The coefficients after a successful `ParseFile`, for a library whose `abs`
is the absolute value. -/
theorem ParseFile_coefs (lib : StdLib) (s : ObjParser) (content : List Char)
    (habs : ∀ x, lib.abs x = |x|)
    (h : (ParseFile lib s (some content)).1 = Outcome.returned Status.kOk) :
    IsMaxOf (ParseFile lib s (some content)).2.x_coef_
      ((triplesOf (GetVertex (ParseFile lib s (some content)).2)).map (fun t => |t.1|)) ∧
    IsMaxOf (ParseFile lib s (some content)).2.y_coef_
      ((triplesOf (GetVertex (ParseFile lib s (some content)).2)).map (fun t => |t.2.1|)) ∧
    IsMaxOf (ParseFile lib s (some content)).2.z_coef_
      ((triplesOf (GetVertex (ParseFile lib s (some content)).2)).map (fun t => |t.2.2|)) := by
  obtain ⟨s1, hI, hP, hv, -⟩ := ParseFile_ok_nonempty lib s content h
  have hne : GetVertex (ParseFile lib s (some content)).2 ≠ [] := by
    rw [hP]; exact hv
  have hinv := CoefInv_Ingest lib (getlines content) _ (CoefInv_ClearData lib s)
  rw [hI] at hinv
  rw [hP] at hne ⊢
  simp only [GetVertex] at hne ⊢
  have hT := triplesOf_ne_nil _ hne hinv.whole
  refine ⟨?_, ?_, ?_⟩
  · have := runningMax_IsMaxOf lib.abs habs ((triplesOf s1.vertices_).map (fun t => t.1))
      (by simpa using hT)
    rw [← hinv.x_eq, List.map_map] at this
    exact this
  · have := runningMax_IsMaxOf lib.abs habs ((triplesOf s1.vertices_).map (fun t => t.2.1))
      (by simpa using hT)
    rw [← hinv.y_eq, List.map_map] at this
    exact this
  · have := runningMax_IsMaxOf lib.abs habs ((triplesOf s1.vertices_).map (fun t => t.2.2))
      (by simpa using hT)
    rw [← hinv.z_eq, List.map_map] at this
    exact this

theorem IsMaxOf_abs_nonneg (m : ℚ) (l : List (ℚ × ℚ × ℚ)) (f : ℚ × ℚ × ℚ → ℚ)
    (h : IsMaxOf m (l.map (fun t => |f t|))) : 0 ≤ m := by
  obtain ⟨t, -, rfl⟩ := List.mem_map.1 h.1
  exact abs_nonneg _

theorem ParseFile_scaledFile :
    ParseFile decimalLib usedParser (some scaledFile) =
      (Outcome.returned Status.kOk,
        { vectors_set_ := [], vertices_ := [-3, 1, 0, 2, -4, 0], edges_ := [0, 1],
          vertices_count_ := 2, x_coef_ := 3, y_coef_ := 4, z_coef_ := 0 }) := by
  decide

/-- Were `abs(x)` the floating overload, that is the absolute value, then for
every file on which `ParseFile` returns `kOk`, over exact arithmetic,
`GetNormalizeCoef` would equal `(max|x| + max|y| + max|z|) / 3`, each maximum
taken over all parsed vertices; each maximum is one of the absolute values, so
the sentinel -10 does not contribute, and the result is at least 0. -/
theorem GetNormalizeCoef_mean_of_maxima (lib : StdLib) (s : ObjParser) (content : List Char)
    (habs : ∀ x, lib.abs x = |x|)
    (h : (ParseFile lib s (some content)).1 = Outcome.returned Status.kOk) :
    ∃ mx my mz : ℚ,
      IsMaxOf mx
        ((triplesOf (GetVertex (ParseFile lib s (some content)).2)).map (fun t => |t.1|)) ∧
      IsMaxOf my
        ((triplesOf (GetVertex (ParseFile lib s (some content)).2)).map (fun t => |t.2.1|)) ∧
      IsMaxOf mz
        ((triplesOf (GetVertex (ParseFile lib s (some content)).2)).map (fun t => |t.2.2|)) ∧
      GetNormalizeCoef (ParseFile lib s (some content)).2 = (mx + my + mz) / 3 ∧
      0 ≤ GetNormalizeCoef (ParseFile lib s (some content)).2 := by
  obtain ⟨hx, hy, hz⟩ := ParseFile_coefs lib s content habs h
  refine ⟨_, _, _, hx, hy, hz, rfl, ?_⟩
  have h1 := IsMaxOf_abs_nonneg _ _ (fun t => t.1) hx
  have h2 := IsMaxOf_abs_nonneg _ _ (fun t => t.2.1) hy
  have h3 := IsMaxOf_abs_nonneg _ _ (fun t => t.2.2) hz
  unfold GetNormalizeCoef
  positivity

/-- The preceding theorem applied to a concrete input. -/
theorem GetNormalizeCoef_mean_of_maxima_witness :
    (∀ x, decimalLib.abs x = |x|) ∧
    (ParseFile decimalLib usedParser (some scaledFile)).1 = Outcome.returned Status.kOk ∧
    GetNormalizeCoef (ParseFile decimalLib usedParser (some scaledFile)).2 = (3 + 4 + 0) / 3 ∧
    ∃ mx my mz : ℚ,
      IsMaxOf mx ((triplesOf (GetVertex (ParseFile decimalLib usedParser
        (some scaledFile)).2)).map (fun t => |t.1|)) ∧
      IsMaxOf my ((triplesOf (GetVertex (ParseFile decimalLib usedParser
        (some scaledFile)).2)).map (fun t => |t.2.1|)) ∧
      IsMaxOf mz ((triplesOf (GetVertex (ParseFile decimalLib usedParser
        (some scaledFile)).2)).map (fun t => |t.2.2|)) ∧
      GetNormalizeCoef (ParseFile decimalLib usedParser (some scaledFile)).2 =
        (mx + my + mz) / 3 ∧
      0 ≤ GetNormalizeCoef (ParseFile decimalLib usedParser (some scaledFile)).2 :=
  ⟨fun _ => rfl, by decide, by rw [ParseFile_scaledFile]; norm_num [GetNormalizeCoef],
    GetNormalizeCoef_mean_of_maxima decimalLib usedParser scaledFile (fun _ => rfl)
      (by decide)⟩

/-- C11 (evaluation). With `abs(x)` the function `int abs(int)`, on the file
`v 0.5 0 0`, `v -0.5 0 0`, `f 1 2` `ParseFile` returns `kOk` and the three
coefficients are 0, so `GetNormalizeCoef` is 0, while the maxima of `|x|`,
`|y|`, `|z|` over the parsed vertices are 1/2, 0, 0 and their mean is 1/6. -/
theorem GetNormalizeCoef_int_abs :
    (ParseFile intAbsLib usedParser (some halfFile)).1 = Outcome.returned Status.kOk ∧
    GetVertex (ParseFile intAbsLib usedParser (some halfFile)).2 =
      [mkRat 1 2, 0, 0, mkRat (-1) 2, 0, 0] ∧
    (ParseFile intAbsLib usedParser (some halfFile)).2.x_coef_ = 0 ∧
    (ParseFile intAbsLib usedParser (some halfFile)).2.y_coef_ = 0 ∧
    (ParseFile intAbsLib usedParser (some halfFile)).2.z_coef_ = 0 ∧
    GetNormalizeCoef (ParseFile intAbsLib usedParser (some halfFile)).2 = 0 ∧
    IsMaxOf (1 / 2) ((triplesOf (GetVertex (ParseFile intAbsLib usedParser
      (some halfFile)).2)).map (fun t => |t.1|)) ∧
    IsMaxOf 0 ((triplesOf (GetVertex (ParseFile intAbsLib usedParser
      (some halfFile)).2)).map (fun t => |t.2.1|)) ∧
    IsMaxOf 0 ((triplesOf (GetVertex (ParseFile intAbsLib usedParser
      (some halfFile)).2)).map (fun t => |t.2.2|)) ∧
    GetNormalizeCoef (ParseFile intAbsLib usedParser (some halfFile)).2 ≠
      (1 / 2 + 0 + 0) / 3 := by
  have hv : GetVertex (ParseFile intAbsLib usedParser (some halfFile)).2 =
      [mkRat 1 2, 0, 0, mkRat (-1) 2, 0, 0] := by decide
  have hx : (ParseFile intAbsLib usedParser (some halfFile)).2.x_coef_ = 0 := by decide
  have hy : (ParseFile intAbsLib usedParser (some halfFile)).2.y_coef_ = 0 := by decide
  have hz : (ParseFile intAbsLib usedParser (some halfFile)).2.z_coef_ = 0 := by decide
  have hg : GetNormalizeCoef (ParseFile intAbsLib usedParser (some halfFile)).2 = 0 := by
    simp only [GetNormalizeCoef, hx, hy, hz]
    norm_num
  have h1 : mkRat 1 2 = 1 / 2 := by rw [Rat.mkRat_eq_div]; norm_num
  have h2 : mkRat (-1) 2 = -(1 / 2) := by rw [Rat.mkRat_eq_div]; norm_num
  refine ⟨by decide, hv, hx, hy, hz, hg, ?_, ?_, ?_, ?_⟩
  · have ha : |(1 / 2 : ℚ)| = 1 / 2 := abs_of_nonneg (by norm_num)
    rw [hv, h1, h2]
    simp only [triplesOf, List.map_cons, List.map_nil, IsMaxOf, abs_neg, ha]
    norm_num
  · rw [hv]
    simp only [triplesOf, List.map_cons, List.map_nil, IsMaxOf]
    norm_num
  · rw [hv]
    simp only [triplesOf, List.map_cons, List.map_nil, IsMaxOf]
    norm_num
  · rw [hg]
    norm_num

/-! ## Degenerate faces -/

theorem InsertUniqueVector_pair (s : ObjParser) (a b : Nat) :
    InsertUniqueVector s [a, b] = InsertPair s a b := by
  simp [InsertUniqueVector, InsertLoop]

theorem ParseFace_single (s : ObjParser) (data tok : List Char) (r : Int)
    (htok : tokens data = [tok]) (hres : ResolveIndex s tok = Except.ok r) :
    FaceBuffer s data = Except.ok [toUnsigned r, toUnsigned r] ∧
    ParseFace s data =
      (Outcome.returned Status.kOk, InsertPair s (toUnsigned r) (toUnsigned r)) := by
  have hmap : (tokens data).map (ResolveIndex s) = [r].map Except.ok := by
    rw [htok]
    simp [hres]
  have hb : FaceBuffer s data = Except.ok [toUnsigned r, toUnsigned r] := by
    rw [FaceBuffer_accepted s data r [] hmap]
    rfl
  refine ⟨hb, ?_⟩
  simp only [ParseFace, hb, InsertUniqueVector_pair]

/-- C18. In every state reached during ingestion, for every face fragment with
exactly one index token, which passes the bound check and resolves to `r`:
`ParseFace` returns `kOk`, its scratch buffer is `[r, r]`, the pair `(r, r)` is
appended to the edge list when the edge list does not hold it yet, and
otherwise the object is left as it was; nothing else is appended. -/
theorem ParseFace_single_index (lib : StdLib) (s : ObjParser) (data tok : List Char)
    (r : Int) (hreach : Reached lib s) (htok : tokens data = [tok])
    (hres : ResolveIndex s tok = Except.ok r) :
    FaceBuffer s data = Except.ok [toUnsigned r, toUnsigned r] ∧
    (ParseFace s data).1 = Outcome.returned Status.kOk ∧
    ((toUnsigned r, toUnsigned r) ∉ pairsOf s.edges_ →
      (ParseFace s data).2.edges_ = s.edges_ ++ [toUnsigned r, toUnsigned r]) ∧
    ((toUnsigned r, toUnsigned r) ∈ pairsOf s.edges_ → (ParseFace s data).2 = s) ∧
    (ParseFace s data).2.vertices_ = s.vertices_ := by
  obtain ⟨hb, hP⟩ := ParseFace_single s data tok r htok hres
  have hinv := Reached_EdgesInv lib s hreach
  rw [hP]
  refine ⟨hb, rfl, ?_, ?_, (InsertPair_frame s _ _).1⟩
  · intro hnot
    have hset : (toUnsigned r, toUnsigned r) ∉ s.vectors_set_ :=
      fun hm => hnot ((hinv.set_eq _).1 hm)
    simp [InsertPair, hset]
  · intro hin
    have hset : (toUnsigned r, toUnsigned r) ∈ s.vectors_set_ := (hinv.set_eq _).2 hin
    simp [InsertPair, hset]

/-- The preceding theorem applied to a concrete input. -/
theorem ParseFace_single_index_witness :
    Reached decimalLib afterTriangle ∧ tokens "4".toList = ["4".toList] ∧
    ResolveIndex afterTriangle "4".toList = Except.ok 3 ∧
    FaceBuffer afterTriangle "4".toList = Except.ok [toUnsigned 3, toUnsigned 3] ∧
    (ParseFace afterTriangle "4".toList).1 = Outcome.returned Status.kOk :=
  ⟨Reached_afterTriangle, by decide, rfl,
    (ParseFace_single_index decimalLib afterTriangle "4".toList "4".toList 3
      Reached_afterTriangle (by decide) rfl).1,
    (ParseFace_single_index decimalLib afterTriangle "4".toList "4".toList 3
      Reached_afterTriangle (by decide) rfl).2.1⟩

/-- C16 (as stated, refuted). The line `f` followed by two spaces is a face
line, so `ParseLine` hands its remainder, which has no index token, to
`ParseFace`; the face loop ends normally, and the scratch buffer that reaches
`InsertUniqueVector` has length one: its length is odd and its value comes from
no token. -/
theorem FaceBuffer_without_token :
    isFaceLine "f  ".toList = true ∧ faceTokens "f  ".toList = [] ∧
    ParseLine decimalLib oneVertex "f  ".toList = ParseFace oneVertex ("f  ".toList.drop 2) ∧
    ∃ buff : List Nat, FaceBuffer oneVertex ("f  ".toList.drop 2) = Except.ok buff ∧
      buff.length = 1 ∧ ¬ buff.length % 2 = 0 ∧
      ¬ ∀ v ∈ buff, ∃ tok ∈ tokens ("f  ".toList.drop 2), ∃ r : Int,
        ResolveIndex oneVertex tok = Except.ok r ∧ v = toUnsigned r :=
  ⟨by decide, by decide, by decide, [toUnsigned indeterminate], rfl, rfl, by decide,
    fun h => by
      obtain ⟨tok, hm, -⟩ := h (toUnsigned indeterminate) (List.mem_singleton.2 rfl)
      have hnil : tokens ("f  ".toList.drop 2) = [] := by decide
      rw [hnil] at hm
      exact List.not_mem_nil _ hm⟩

/-- C16 (amended). For every face fragment on which the face loop of
`ParseFace` ends normally: with at least one index token the scratch buffer
handed to `InsertUniqueVector` has even length, twice the number of tokens, and
every value in it is the `unsigned` conversion of the resolved index of a token
of the fragment; with no index token the scratch buffer has length one, and
`ParseFace` returns `kOk` leaving the object as it was. -/
theorem FaceBuffer_shape (s : ObjParser) (data : List Char) (buff : List Nat)
    (hacc : FaceBuffer s data = Except.ok buff) :
    (tokens data ≠ [] →
      buff.length = 2 * (tokens data).length ∧ buff.length % 2 = 0 ∧
      ∀ v ∈ buff, ∃ tok ∈ tokens data, ∃ r : Int,
        ResolveIndex s tok = Except.ok r ∧ v = toUnsigned r) ∧
    (tokens data = [] →
      buff.length = 1 ∧ ParseFace s data = (Outcome.returned Status.kOk, s)) := by
  constructor
  · intro hne
    have hN : 1 ≤ (tokens data).length := by
      cases h : tokens data with
      | nil => exact absurd h hne
      | cons a l => simp
    obtain ⟨rs, hrs, hlen, hblen, -⟩ := FaceBuffer_entries s data buff hacc hN
    refine ⟨by rw [hblen, hlen], by rw [hblen]; omega, ?_⟩
    intro v hv
    have hfrom : ∀ r0 ∈ rs, ∃ tok ∈ tokens data, ResolveIndex s tok = Except.ok r0 := by
      intro r0 hr0
      have : (Except.ok r0 : Except Outcome Int) ∈ (tokens data).map (ResolveIndex s) := by
        rw [hrs]
        exact List.mem_map_of_mem _ hr0
      obtain ⟨tok, hm, ht⟩ := List.mem_map.1 this
      exact ⟨tok, hm, ht⟩
    cases rs with
    | nil => simp at hlen; omega
    | cons r rest =>
      have hb := FaceBuffer_accepted s data r rest hrs
      rw [hacc] at hb
      simp only [Except.ok.injEq] at hb
      rw [hb] at hv
      simp only [List.cons_append, List.mem_cons, List.mem_append, List.mem_flatMap,
        List.mem_singleton, List.not_mem_nil, or_false] at hv
      rcases hv with rfl | ⟨x, hx, hvx⟩ | rfl
      · obtain ⟨tok, hm, ht⟩ := hfrom r (List.mem_cons_self _ _)
        exact ⟨tok, hm, r, ht, rfl⟩
      · obtain ⟨tok, hm, ht⟩ := hfrom x (List.mem_cons_of_mem _ hx)
        refine ⟨tok, hm, x, ht, ?_⟩
        rcases hvx with h | h <;> exact h
      · obtain ⟨tok, hm, ht⟩ := hfrom r (List.mem_cons_self _ _)
        exact ⟨tok, hm, r, ht, rfl⟩
  · intro hnil
    have hb := FaceBuffer_no_token s data hnil
    rw [hacc] at hb
    simp only [Except.ok.injEq] at hb
    refine ⟨by rw [hb]; rfl, ?_⟩
    simp only [ParseFace, hacc, hb]
    rfl

/-- The preceding theorem applied to a concrete input. -/
theorem FaceBuffer_shape_witness :
    FaceBuffer afterTriangle "1 3 4".toList = Except.ok [0, 2, 2, 3, 3, 0] ∧
    tokens "1 3 4".toList ≠ [] ∧
    [0, 2, 2, 3, 3, 0].length = 2 * (tokens "1 3 4".toList).length :=
  ⟨rfl, by decide,
    ((FaceBuffer_shape afterTriangle "1 3 4".toList [0, 2, 2, 3, 3, 0] rfl).1 (by decide)).1⟩

/-! ## Repeated and reversed faces -/

theorem ResolveIndex_congr (s s1 : ObjParser) (hv : s1.vertices_ = s.vertices_)
    (hc : s1.vertices_count_ = s.vertices_count_) (tok : List Char) :
    ResolveIndex s1 tok = ResolveIndex s tok := by
  unfold ResolveIndex normalizeIndex
  rw [hv, hc]

theorem FaceLoop_congr (s s1 : ObjParser) (hv : s1.vertices_ = s.vertices_)
    (hc : s1.vertices_count_ = s.vertices_count_) (toks : List (List Char)) :
    ∀ loc, FaceLoop s1 loc toks = FaceLoop s loc toks := by
  induction toks with
  | nil => intro loc; rfl
  | cons t ts ih =>
    intro loc
    rw [FaceLoop.eq_2, FaceLoop.eq_2]
    simp only [FaceStep, ResolveIndex_congr s s1 hv hc, ih]

theorem FaceBuffer_congr (s s1 : ObjParser) (hv : s1.vertices_ = s.vertices_)
    (hc : s1.vertices_count_ = s.vertices_count_) (data : List Char) :
    FaceBuffer s1 data = FaceBuffer s data := by
  unfold FaceBuffer
  rw [FaceLoop_congr s s1 hv hc]

theorem InsertPair_noop (s : ObjParser) (a b : Nat)
    (h : (a, b) ∈ s.vectors_set_ ∨ (b, a) ∈ s.vectors_set_) : InsertPair s a b = s := by
  unfold InsertPair
  rw [if_neg]
  rintro ⟨h1, h2⟩
  rcases h with h | h
  · exact h1 h
  · exact h2 h

theorem InsertLoop_noop (data : List Nat) (s : ObjParser)
    (h : ∀ p ∈ pairsOf data, p ∈ s.vectors_set_ ∨ (p.2, p.1) ∈ s.vectors_set_) :
    InsertLoop s data = s := by
  induction data using pairsOf.induct with
  | case1 a b rest ih =>
    have hab := h (a, b) (by simp [pairsOf])
    rw [InsertLoop, InsertPair_noop s a b hab]
    exact ih (fun p hp => h p (by simp [pairsOf, hp]))
  | case2 l hl =>
    match l, hl with
    | [], _ => rfl
    | [c], _ => rfl
    | x :: y :: r, hl => exact absurd rfl (hl x y r)

theorem InsertUniqueVector_noop (data : List Nat) (s : ObjParser)
    (h : ∀ p ∈ pairsOf data, p ∈ s.vectors_set_ ∨ (p.2, p.1) ∈ s.vectors_set_) :
    InsertUniqueVector s data = s := by
  unfold InsertUniqueVector
  split
  · exact InsertLoop_noop data s h
  · rfl

theorem InsertUniqueVector_covers (data : List Nat) (s : ObjParser)
    (heven : data.length % 2 = 0) (p : Nat × Nat) (hp : p ∈ pairsOf data) :
    p ∈ (InsertUniqueVector s data).vectors_set_ ∨
      (p.2, p.1) ∈ (InsertUniqueVector s data).vectors_set_ := by
  unfold InsertUniqueVector
  rw [if_pos heven]
  exact InsertLoop_covers data s p hp

theorem InsertUniqueVector_idem (s : ObjParser) (data : List Nat) :
    InsertUniqueVector (InsertUniqueVector s data) data = InsertUniqueVector s data := by
  by_cases heven : data.length % 2 = 0
  · exact InsertUniqueVector_noop data _
      (fun p hp => InsertUniqueVector_covers data s heven p hp)
  · simp [InsertUniqueVector, heven]

theorem InsertPair_reverse (s : ObjParser) (a b : Nat) :
    InsertPair (InsertPair s a b) b a = InsertPair s a b :=
  InsertPair_noop _ b a (Or.symm (InsertPair_covers s a b))

theorem mem_cycle (f : Int → Nat) (r : Int) (rest : List Int) (p : Nat × Nat) :
    p ∈ List.zip (f r :: rest.map f) (rest.map f ++ [f r]) ↔
      ∃ j, j < (r :: rest).length ∧
        p = (f ((r :: rest).getD j 0), f ((r :: rest).getD ((j + 1) % (r :: rest).length) 0)) := by
  constructor
  · intro hp
    obtain ⟨j, hj⟩ := List.mem_iff_getElem?.1 hp
    have hlt : j < (r :: rest).length := by
      have := (List.getElem?_eq_some_iff.1 hj).1
      simp at this ⊢
      omega
    rw [cycle_pair_getElem? f r rest j hlt] at hj
    exact ⟨j, hlt, (Option.some.inj hj).symm⟩
  · rintro ⟨j, hj, rfl⟩
    exact cycle_pair_mem f r rest j hj

theorem reverse_getD (rs : List Int) (j : Nat) (hj : j < rs.length) :
    rs.reverse.getD j 0 = rs.getD (rs.length - 1 - j) 0 := by
  rw [List.getD_eq_getElem _ _ (by simpa using hj), List.getD_eq_getElem _ _ (by omega),
    List.getElem_reverse]

theorem reverse_index (j N : Nat) (hj : j < N) :
    N - 1 - (j + 1) % N < N ∧ (N - 1 - (j + 1) % N + 1) % N = N - 1 - j := by
  by_cases hlast : j + 1 < N
  · rw [Nat.mod_eq_of_lt hlast]
    have e : N - 1 - (j + 1) + 1 = N - 1 - j := by omega
    rw [e]
    exact ⟨by omega, Nat.mod_eq_of_lt (by omega)⟩
  · have hN : j + 1 = N := by omega
    rw [hN, Nat.mod_self]
    have e : N - 1 - 0 + 1 = N := by omega
    rw [e, Nat.mod_self]
    exact ⟨by omega, by omega⟩

/-- Every pair of the scratch buffer of the reversed index list is the reverse
of a pair of the scratch buffer of the index list. -/
theorem reversed_cycle (f : Int → Nat) (r : Int) (rest : List Int) (r1 : Int)
    (rest1 : List Int) (hrev : r1 :: rest1 = (r :: rest).reverse) (p : Nat × Nat)
    (hp : p ∈ List.zip (f r1 :: rest1.map f) (rest1.map f ++ [f r1])) :
    (p.2, p.1) ∈ List.zip (f r :: rest.map f) (rest.map f ++ [f r]) := by
  obtain ⟨j, hj, rfl⟩ := (mem_cycle f r1 rest1 p).1 hp
  have hlen : (r1 :: rest1).length = (r :: rest).length := by rw [hrev]; simp
  rw [hlen] at hj
  have hm : (j + 1) % (r :: rest).length < (r :: rest).length := Nat.mod_lt _ (by simp)
  obtain ⟨hi, hback⟩ := reverse_index j (r :: rest).length hj
  rw [mem_cycle]
  refine ⟨(r :: rest).length - 1 - (j + 1) % (r :: rest).length, hi, ?_⟩
  rw [hback, hlen, hrev, reverse_getD _ _ hj, reverse_getD _ _ hm]

theorem ParseFace_of_buffer (s : ObjParser) (data : List Char) (buff : List Nat)
    (h : FaceBuffer s data = Except.ok buff) :
    ParseFace s data = (Outcome.returned Status.kOk, InsertUniqueVector s buff) := by
  simp only [ParseFace, h]

theorem ParseFace_again (s : ObjParser) (data data1 : List Char) (rs : List Int)
    (hN : 1 ≤ rs.length) (hres : (tokens data).map (ResolveIndex s) = rs.map Except.ok)
    (hrev : tokens data1 = (tokens data).reverse) :
    ParseFace (ParseFace s data).2 data = (Outcome.returned Status.kOk, (ParseFace s data).2) ∧
    ParseFace (ParseFace s data).2 data1 =
      (Outcome.returned Status.kOk, (ParseFace s data).2) := by
  cases rs with
  | nil => simp at hN
  | cons r rest =>
    have hfr := ParseFace_frame s data
    have hbuf := FaceBuffer_accepted s data r rest hres
    have heven : (toUnsigned r :: rest.flatMap (fun x => [toUnsigned x, toUnsigned x]) ++
        [toUnsigned r]).length % 2 = 0 := by
      have := length_flatMap_twice toUnsigned rest
      simp only [List.length_cons, List.length_append, List.length_nil, this]
      omega
    have hP : (ParseFace s data).2 = InsertUniqueVector s (toUnsigned r ::
        rest.flatMap (fun x => [toUnsigned x, toUnsigned x]) ++ [toUnsigned r]) := by
      rw [ParseFace_of_buffer s data _ hbuf]
    have hcov : ∀ p ∈ List.zip (toUnsigned r :: rest.map toUnsigned)
        (rest.map toUnsigned ++ [toUnsigned r]),
        p ∈ (ParseFace s data).2.vectors_set_ ∨ (p.2, p.1) ∈ (ParseFace s data).2.vectors_set_ := by
      intro p hp
      rw [← pairsOf_chain toUnsigned rest (toUnsigned r) (toUnsigned r)] at hp
      rw [hP]
      exact InsertUniqueVector_covers _ s heven p hp
    generalize (ParseFace s data).2 = s1 at hfr hcov
    clear hP
    constructor
    · have hb2 : FaceBuffer s1 data = _ := (FaceBuffer_congr s s1 hfr.1 hfr.2 data).trans hbuf
      rw [ParseFace_of_buffer s1 data _ hb2, InsertUniqueVector_noop]
      intro p hp
      rw [pairsOf_chain toUnsigned rest (toUnsigned r) (toUnsigned r)] at hp
      exact hcov p hp
    · have hres1 : (tokens data1).map (ResolveIndex s) = (r :: rest).reverse.map Except.ok := by
        rw [hrev, List.map_reverse, hres, List.map_reverse]
      obtain ⟨r1, rest1, hcons⟩ : ∃ r1 rest1, r1 :: rest1 = (r :: rest).reverse := by
        cases h : (r :: rest).reverse with
        | nil => simp at h
        | cons a l => exact ⟨a, l, rfl⟩
      rw [← hcons] at hres1
      have hbuf1 := FaceBuffer_accepted s data1 r1 rest1 hres1
      have hb2 : FaceBuffer s1 data1 = _ := (FaceBuffer_congr s s1 hfr.1 hfr.2 data1).trans hbuf1
      rw [ParseFace_of_buffer s1 data1 _ hb2, InsertUniqueVector_noop]
      intro p hp
      rw [pairsOf_chain toUnsigned rest1 (toUnsigned r1) (toUnsigned r1)] at hp
      have := reversed_cycle toUnsigned r rest r1 rest1 hcons p hp
      exact Or.symm (hcov _ this)

/-- C15. In every parser state, hence in every state reached during ingestion,
after a face fragment with at least one index token has been accepted,
ingesting the same fragment again, or a fragment with the same index tokens in
reverse order, returns `kOk` and leaves the object, and so the edge list,
unchanged.  `InsertUniqueVector` is idempotent on every buffer, and inserting
`(b, a)` after `(a, b)` changes nothing. -/
theorem ParseFace_repeat_or_reverse (s : ObjParser) (data data1 : List Char) (rs : List Int)
    (hN : 1 ≤ rs.length) (hres : (tokens data).map (ResolveIndex s) = rs.map Except.ok)
    (hrev : tokens data1 = (tokens data).reverse) :
    (ParseFace s data).1 = Outcome.returned Status.kOk ∧
    ParseFace (ParseFace s data).2 data = (Outcome.returned Status.kOk, (ParseFace s data).2) ∧
    ParseFace (ParseFace s data).2 data1 =
      (Outcome.returned Status.kOk, (ParseFace s data).2) ∧
    (ParseFace (ParseFace s data).2 data).2.edges_ = (ParseFace s data).2.edges_ ∧
    (ParseFace (ParseFace s data).2 data1).2.edges_ = (ParseFace s data).2.edges_ ∧
    (∀ (s0 : ObjParser) (buff : List Nat),
      InsertUniqueVector (InsertUniqueVector s0 buff) buff = InsertUniqueVector s0 buff) ∧
    (∀ (s0 : ObjParser) (a b : Nat), InsertPair (InsertPair s0 a b) b a = InsertPair s0 a b) := by
  obtain ⟨h1, h2⟩ := ParseFace_again s data data1 rs hN hres hrev
  refine ⟨?_, h1, h2, by rw [h1], by rw [h2], InsertUniqueVector_idem, InsertPair_reverse⟩
  cases rs with
  | nil => simp at hN
  | cons r rest => rw [ParseFace_of_buffer s data _ (FaceBuffer_accepted s data r rest hres)]

/-- The preceding theorem applied to a concrete input. -/
theorem ParseFace_repeat_or_reverse_witness :
    1 ≤ [(0 : Int), 2, 3].length ∧
    (tokens "1 3 4".toList).map (ResolveIndex afterTriangle) = [(0 : Int), 2, 3].map Except.ok ∧
    tokens "4 3 1".toList = (tokens "1 3 4".toList).reverse ∧
    ParseFace (ParseFace afterTriangle "1 3 4".toList).2 "4 3 1".toList =
      (Outcome.returned Status.kOk, (ParseFace afterTriangle "1 3 4".toList).2) :=
  ⟨by decide, rfl, by decide,
    (ParseFace_repeat_or_reverse afterTriangle "1 3 4".toList "4 3 1".toList [0, 2, 3]
      (by decide) rfl (by decide)).2.2.1⟩

/-! ## The pre-scan as an early exit -/

theorem ReserveLine_mono (acc : Nat × Nat) (line : List Char) :
    acc.1 ≤ (ReserveLine acc line).1 ∧ acc.2 ≤ (ReserveLine acc line).2 := by
  have hfold : ∀ (toks : List (List Char)) (n : Nat),
      toks.foldl (fun edge_count _ => edge_count + 2) n = n + 2 * toks.length := by
    intro toks
    induction toks with
    | nil => intro n; rfl
    | cons t ts ih => intro n; rw [List.foldl_cons, ih]; simp only [List.length_cons]; omega
  unfold ReserveLine
  split
  · exact ⟨le_refl _, le_refl _⟩
  · split
    · exact ⟨by simp, le_refl _⟩
    · split
      · refine ⟨le_refl _, ?_⟩
        simp only [hfold]
        omega
      · exact ⟨le_refl _, le_refl _⟩

theorem foldl_ReserveLine_mono (lines : List (List Char)) : ∀ acc : Nat × Nat,
    acc.1 ≤ (lines.foldl ReserveLine acc).1 ∧ acc.2 ≤ (lines.foldl ReserveLine acc).2 := by
  induction lines with
  | nil => intro acc; exact ⟨le_refl _, le_refl _⟩
  | cons l ls ih =>
    intro acc
    rw [List.foldl_cons]
    exact ⟨le_trans (ReserveLine_mono acc l).1 (ih _).1,
      le_trans (ReserveLine_mono acc l).2 (ih _).2⟩

theorem ReserveLine_vertex (acc : Nat × Nat) (line : List Char)
    (h : isVertexLine line = true) : 0 < (ReserveLine acc line).1 := by
  have hv : 2 < line.length ∧ firstToken line = ['v'] := by
    simpa [isVertexLine] using h
  unfold ReserveLine
  rw [if_neg (by omega), if_pos hv.2]
  simp

theorem ReserveLine_face (acc : Nat × Nat) (line : List Char)
    (h : isFaceLine line = true) (hne : faceTokens line ≠ []) :
    0 < (ReserveLine acc line).2 := by
  have hf : 2 < line.length ∧ firstToken line = ['f'] := by
    simpa [isFaceLine] using h
  have hfold : ∀ (toks : List (List Char)) (n : Nat),
      toks.foldl (fun edge_count _ => edge_count + 2) n = n + 2 * toks.length := by
    intro toks
    induction toks with
    | nil => intro n; rfl
    | cons t ts ih => intro n; rw [List.foldl_cons, ih]; simp only [List.length_cons]; omega
  unfold ReserveLine
  rw [if_neg (by omega), if_neg (by rw [hf.2]; decide), if_pos hf.2]
  simp only [hfold]
  have : 0 < (tokens (line.drop 2)).length := List.length_pos.2 hne
  omega

theorem foldl_ReserveLine_zero (lines : List (List Char)) : ∀ acc : Nat × Nat,
    ((lines.foldl ReserveLine acc).1 = 0 → ∀ line ∈ lines, isVertexLine line = false) ∧
    ((lines.foldl ReserveLine acc).2 = 0 →
      ∀ line ∈ lines, isFaceLine line = true → faceTokens line = []) := by
  induction lines with
  | nil => intro acc; simp
  | cons l ls ih =>
    intro acc
    rw [List.foldl_cons]
    have hm := foldl_ReserveLine_mono ls (ReserveLine acc l)
    constructor
    · intro h0 line hmem
      rcases List.mem_cons.1 hmem with rfl | hmem
      · by_contra hv
        have := ReserveLine_vertex acc line (by simpa using hv)
        omega
      · exact (ih _).1 h0 line hmem
    · intro h0 line hmem hface
      rcases List.mem_cons.1 hmem with rfl | hmem
      · by_contra hne
        have := ReserveLine_face acc line hface hne
        omega
      · exact (ih _).2 h0 line hmem hface

theorem ReserveData_fails (lines : List (List Char)) (h : ReserveData lines ≠ Status.kOk) :
    (∀ line ∈ lines, isVertexLine line = false) ∨
    (∀ line ∈ lines, isFaceLine line = true → faceTokens line = []) := by
  unfold ReserveData at h
  by_cases hc : 0 < (ReserveCounts lines).1 ∧ 0 < (ReserveCounts lines).2
  · rw [if_pos hc] at h
    exact absurd rfl h
  · have hz : (ReserveCounts lines).1 = 0 ∨ (ReserveCounts lines).2 = 0 := by omega
    rcases hz with hz | hz
    · exact Or.inl ((foldl_ReserveLine_zero lines (0, 0)).1 hz)
    · exact Or.inr ((foldl_ReserveLine_zero lines (0, 0)).2 hz)

theorem ParseLine_keeps_no_vertex (lib : StdLib) (s : ObjParser) (line : List Char)
    (hline : isVertexLine line = false) (h : s.vertices_ = []) :
    (ParseLine lib s line).2.vertices_ = [] := by
  unfold ParseLine
  split
  · rename_i hlen
    split
    · rename_i hv
      simp [isVertexLine, hv] at hline
      omega
    · split
      · rw [(ParseFace_frame s _).1]; exact h
      · exact h
  · exact h

theorem ParseLine_keeps_no_edge (lib : StdLib) (s : ObjParser) (line : List Char)
    (hline : isFaceLine line = true → faceTokens line = []) (h : s.edges_ = []) :
    (ParseLine lib s line).2.edges_ = [] := by
  unfold ParseLine
  split
  · rename_i hlen
    split
    · unfold ParseVertex
      split
      · exact h
      · rfl
    · split
      · rename_i hf
        have hnil : tokens (line.drop 2) = [] := hline (by simp [isFaceLine, hf]; omega)
        rw [ParseFace_of_buffer s _ _ (FaceBuffer_no_token s _ hnil)]
        exact h
      · exact h
  · exact h

theorem Ingest_keeps_empty (lib : StdLib) (lines : List (List Char)) : ∀ s : ObjParser,
    ((∀ line ∈ lines, isVertexLine line = false) → s.vertices_ = [] →
      (Ingest lib s lines).2.vertices_ = []) ∧
    ((∀ line ∈ lines, isFaceLine line = true → faceTokens line = []) → s.edges_ = [] →
      (Ingest lib s lines).2.edges_ = []) := by
  induction lines with
  | nil => intro s; exact ⟨fun _ h => h, fun _ h => h⟩
  | cons l ls ih =>
    intro s
    constructor
    · intro hall h
      have hl := ParseLine_keeps_no_vertex lib s l (hall l (List.mem_cons_self _ _)) h
      rw [Ingest.eq_2]
      split
      · rename_i s1 heq
        rw [heq] at hl
        exact (ih s1).1 (fun line hm => hall line (List.mem_cons_of_mem _ hm)) hl
      · exact hl
    · intro hall h
      have hl := ParseLine_keeps_no_edge lib s l (hall l (List.mem_cons_self _ _)) h
      rw [Ingest.eq_2]
      split
      · rename_i s1 heq
        rw [heq] at hl
        exact (ih s1).2 (fun line hm => hall line (List.mem_cons_of_mem _ hm)) hl
      · exact hl

theorem ParseFile_eq_NoReserve (lib : StdLib) (s : ObjParser) (file : Option (List Char))
    (h : ∀ content, file = some content → FaceTokensNumeric (getlines content)) :
    ParseFile lib s file = ParseFileNoReserve lib s file := by
  cases file with
  | none => rfl
  | some content =>
    by_cases hscan : ReserveData (getlines content) = Status.kOk
    · simp only [ParseFile, ParseFileNoReserve, hscan]
    · have hP := ParseFile_prescan_fails lib s content (ReserveData_fails _ hscan)
      rw [hP]
      obtain ⟨st, hst⟩ := Ingest_returns lib (getlines content) (ClearData s) (h content rfl)
      rcases hI : Ingest lib (ClearData s) (getlines content) with ⟨out, s1⟩
      rw [hI] at hst
      simp only at hst
      subst hst
      have hempty : s1.vertices_ = [] ∨ s1.edges_ = [] := by
        have hk := Ingest_keeps_empty lib (getlines content) (ClearData s)
        rw [hI] at hk
        rcases ReserveData_fails _ hscan with hv | hf
        · exact Or.inl (hk.1 hv rfl)
        · exact Or.inr (hk.2 hf rfl)
      simp only [ParseFileNoReserve, hI]
      rcases Finish_cases st s1 with ⟨-, -, hv, hedge⟩ | ⟨st2, -, hF, hor⟩
      · rcases hempty with he | he
        · exact absurd he hv
        · exact absurd he hedge
      · rcases hor with ⟨-, hst2⟩ | ⟨⟨hv, hedge⟩, -⟩
        · rw [hF, hst2]
          rfl
        · rcases hempty with he | he
          · exact absurd he hv
          · exact absurd he hedge

/-- C17. For every file whose face-line tokens all start with an integer,
`ParseFile` and `ParseFile` with the `ReserveData` step removed end the same
way and leave the same object: the status, the vertex list and the edge list
are equal.  The pre-scan is an early exit only. -/
theorem ParseFile_refines_NoReserve (lib : StdLib) (s : ObjParser)
    (file : Option (List Char))
    (h : ∀ content, file = some content → FaceTokensNumeric (getlines content)) :
    ParseFile lib s file = ParseFileNoReserve lib s file ∧
    (ParseFile lib s file).1 = (ParseFileNoReserve lib s file).1 ∧
    GetVertex (ParseFile lib s file).2 = GetVertex (ParseFileNoReserve lib s file).2 ∧
    GetEdges (ParseFile lib s file).2 = GetEdges (ParseFileNoReserve lib s file).2 := by
  have he := ParseFile_eq_NoReserve lib s file h
  exact ⟨he, by rw [he], by rw [he], by rw [he]⟩

/-- The preceding theorem applied to a concrete input. -/
theorem ParseFile_refines_NoReserve_witness :
    (∀ content, some verticesOnlyFile = some content → FaceTokensNumeric (getlines content)) ∧
    ReserveData (getlines verticesOnlyFile) = Status.kErrorFileEmpty ∧
    ParseFile decimalLib usedParser (some verticesOnlyFile) =
      ParseFileNoReserve decimalLib usedParser (some verticesOnlyFile) :=
  ⟨fun content hc => by
      simp only [Option.some.injEq] at hc
      subst hc
      decide,
    by decide,
    (ParseFile_refines_NoReserve decimalLib usedParser (some verticesOnlyFile)
      (fun content hc => by
        simp only [Option.some.injEq] at hc
        subst hc
        decide)).1⟩

/-- Without the condition on the face tokens the two differ: on `f x` the
pre-scan ends `ParseFile` with `kErrorFileEmpty`, while ingestion without the
pre-scan is left by the exception of `std::stoi`. -/
theorem ParseFile_NoReserve_stray_token :
    ParseFile decimalLib usedParser (some strayTokenFile) =
      (Outcome.returned Status.kErrorFileEmpty, ClearData usedParser) ∧
    ParseFileNoReserve decimalLib usedParser (some strayTokenFile) =
      (Outcome.invalid_argument, ClearData usedParser) := by
  decide

/-! ## Indices beyond the vertices, and indented vertex lines -/

/-- A positive index above the vertex count passes the bound check as long as
it does not exceed the coordinate count, and is stored as it resolves. -/
theorem ResolveIndex_beyond_vertices (s : ObjParser) (tok : List Char) (k : Int)
    (hinv : CountInv s) (htok : stoi tok = StoiResult.value k)
    (hlo : (s.vertices_count_ : Int) < k) (hhi : k ≤ 3 * (s.vertices_count_ : Int)) :
    ResolveIndex s tok = Except.ok (k - 1) ∧ s.vertices_count_ ≤ toUnsigned (k - 1) := by
  have hb : k.natAbs ≤ s.vertices_.length := by
    unfold CountInv at hinv
    omega
  have hnorm : normalizeIndex s k = k - 1 := by
    unfold normalizeIndex
    rw [if_neg (by omega)]
  have hrange := stoi_value_range _ _ htok
  have hu : ((toUnsigned (k - 1) : Nat) : Int) = k - 1 := by
    unfold toUnsigned
    rw [Int.toNat_of_nonneg (Int.emod_nonneg _ (by norm_num))]
    exact Int.emod_eq_of_lt (by omega) (by omega)
  refine ⟨by rw [ResolveIndex_value s tok k htok hb, hnorm], ?_⟩
  omega

/-- C19. The bound check of `ParseFace` does not confine edge indices to
existing vertices: there is a file on which `ParseFile` returns `kOk` while
the edge list holds a value not less than the number of parsed vertices.  On
`v 0 0 0`, `f 3 1` the edges are `[2, 0]` with one vertex; the index token 0
is stored as 4294967295 and the token -3 as 4294967294. -/
theorem edges_beyond_vertices :
    (∃ content : List Char,
      (ParseFile decimalLib usedParser (some content)).1 = Outcome.returned Status.kOk ∧
      ∃ v ∈ GetEdges (ParseFile decimalLib usedParser (some content)).2,
        (ParseFile decimalLib usedParser (some content)).2.vertices_count_ ≤ v) ∧
    ParseFile decimalLib usedParser (some beyondVerticesFile) =
      (Outcome.returned Status.kOk,
        { vectors_set_ := [], vertices_ := [0, 0, 0], edges_ := [2, 0],
          vertices_count_ := 1, x_coef_ := 0, y_coef_ := 0, z_coef_ := 0 }) ∧
    ParseFile decimalLib usedParser (some zeroIndexFile) =
      (Outcome.returned Status.kOk,
        { vectors_set_ := [], vertices_ := [0, 0, 0], edges_ := [4294967295, 0],
          vertices_count_ := 1, x_coef_ := 0, y_coef_ := 0, z_coef_ := 0 }) ∧
    ParseFile decimalLib usedParser (some negativeWrapFile) =
      (Outcome.returned Status.kOk,
        { vectors_set_ := [], vertices_ := [0, 0, 0], edges_ := [4294967294, 0],
          vertices_count_ := 1, x_coef_ := 0, y_coef_ := 0, z_coef_ := 0 }) :=
  ⟨⟨beyondVerticesFile, by decide, 2, by decide, by decide⟩, by decide, by decide, by decide⟩

theorem firstToken_skip (a : Char) (rest : List Char) (ha : isspace a = true) :
    firstToken (a :: rest) = firstToken rest := by
  simp [firstToken, tokens, tokensAux, ha]

theorem tokensAux_headD (cs : List Char) : ∀ cur : List Char, cur ≠ [] →
    (tokensAux cur cs).headD [] = cur.reverse ++ cs.takeWhile (fun c => !isspace c) := by
  induction cs with
  | nil => intro cur hne; simp [tokensAux, hne]
  | cons c rest ih =>
    intro cur hne
    by_cases hc : isspace c = true
    · simp [tokensAux, hc, hne, List.takeWhile]
    · simp only [Bool.not_eq_true] at hc
      have := ih (c :: cur) (by simp)
      simp only [tokensAux, hc, List.takeWhile, Bool.false_eq_true, if_false, Bool.not_false]
      rw [this]
      simp

theorem firstToken_v (rest : List Char) (h : firstToken rest = ['v']) :
    ∃ tail, rest.dropWhile isspace = 'v' :: tail := by
  induction rest with
  | nil => simp [firstToken, tokens, tokensAux] at h
  | cons c cs ih =>
    by_cases hc : isspace c = true
    · rw [firstToken_skip c cs hc] at h
      obtain ⟨tail, ht⟩ := ih h
      exact ⟨tail, by simp [List.dropWhile, hc, ht]⟩
    · simp only [Bool.not_eq_true] at hc
      have e : firstToken (c :: cs) = [c] ++ cs.takeWhile (fun c => !isspace c) := by
        have := tokensAux_headD cs [c] (by simp)
        simpa [firstToken, tokens, tokensAux, hc] using this
      rw [e] at h
      simp only [List.singleton_append, List.cons.injEq] at h
      obtain ⟨rfl, -⟩ := h
      exact ⟨cs, by simp [List.dropWhile, hc]⟩

theorem extractDecimal_at_v (data tail : List Char)
    (h : data.dropWhile isspace = 'v' :: tail) : extractDecimal data = none := by
  have hs : splitSign ('v' :: tail) = (false, 'v' :: tail) := rfl
  have ht : ('v' :: tail).takeWhile Char.isDigit = [] := rfl
  have hd : ('v' :: tail).dropWhile Char.isDigit = 'v' :: tail := rfl
  simp only [extractDecimal, h, hs, ht, hd]
  rfl

theorem ParseLine_indented (lib : StdLib) (s : ObjParser) (a b : Char) (rest : List Char)
    (hlib : ∀ data tail, data.dropWhile isspace = 'v' :: tail → lib.extract_double data = none)
    (ha : isspace a = true) (hb : isspace b = true)
    (hv : firstToken (a :: b :: rest) = ['v']) :
    (∃ tail, rest.dropWhile isspace = 'v' :: tail) ∧
    ParseLine lib s (a :: b :: rest) =
      (Outcome.returned Status.kErrorIncorrectFile, ClearData s) := by
  have hrest : firstToken rest = ['v'] := by
    rw [firstToken_skip a _ ha, firstToken_skip b _ hb] at hv
    exact hv
  obtain ⟨tail, ht⟩ := firstToken_v rest hrest
  refine ⟨⟨tail, ht⟩, ?_⟩
  have hlen : 2 < (a :: b :: rest).length := by
    cases rest with
    | nil => simp [firstToken, tokens, tokensAux] at hrest
    | cons c cs => simp
  have hx : extract3 lib rest = none := by
    unfold extract3
    rw [hlib rest tail ht]
  have hdrop : (a :: b :: rest).drop 2 = rest := rfl
  simp only [ParseLine, hlen, hv, if_true, hdrop, ParseVertex, hx]

/-- C20. Dispatch is by the first token, the payload is the line without its
first two characters.  With a library whose extraction of a `double` fails at
the character `v`: every line that begins with two whitespace characters and
whose first token is `v` hands `ParseVertex` a fragment whose first
non-blank character is still `v`, so `ParseLine` returns `kErrorIncorrectFile`
and clears the object; a vertex line that begins with `v`, or with one
whitespace character and then `v`, and whose payload holds three numbers is
accepted. -/
theorem ParseLine_leading_whitespace (lib : StdLib) (s : ObjParser)
    (hlib : ∀ data tail, data.dropWhile isspace = 'v' :: tail → lib.extract_double data = none) :
    (∀ (a b : Char) (rest : List Char), isspace a = true → isspace b = true →
      firstToken (a :: b :: rest) = ['v'] →
      (∃ tail, ((a :: b :: rest).drop 2).dropWhile isspace = 'v' :: tail) ∧
      ParseLine lib s (a :: b :: rest) =
        (Outcome.returned Status.kErrorIncorrectFile, ClearData s)) ∧
    (∀ (w : Char) (data : List Char) (x y z : ℚ),
      isVertexLine ('v' :: w :: data) = true → extract3 lib data = some (x, y, z) →
      (ParseLine lib s ('v' :: w :: data)).1 = Outcome.returned Status.kOk ∧
      (ParseLine lib s ('v' :: w :: data)).2.vertices_ = s.vertices_ ++ [x, y, z]) ∧
    (∀ (w : Char) (data : List Char) (x y z : ℚ), isspace w = true →
      isVertexLine (w :: 'v' :: data) = true → extract3 lib data = some (x, y, z) →
      (ParseLine lib s (w :: 'v' :: data)).1 = Outcome.returned Status.kOk ∧
      (ParseLine lib s (w :: 'v' :: data)).2.vertices_ = s.vertices_ ++ [x, y, z]) := by
  refine ⟨?_, ?_, ?_⟩
  · intro a b rest ha hb hv
    exact ParseLine_indented lib s a b rest hlib ha hb hv
  · intro w data x y z hline hx
    rw [ParseLine_vertex_ok lib s ('v' :: w :: data) x y z hline hx]
    exact ⟨rfl, rfl⟩
  · intro w data x y z _ hline hx
    rw [ParseLine_vertex_ok lib s (w :: 'v' :: data) x y z hline hx]
    exact ⟨rfl, rfl⟩

/-- The preceding theorem applied to a concrete input. -/
theorem ParseLine_leading_whitespace_witness :
    (∀ data tail, data.dropWhile isspace = 'v' :: tail →
      decimalLib.extract_double data = none) ∧
    isspace ' ' = true ∧ firstToken (' ' :: ' ' :: "v 1 2 3".toList) = ['v'] ∧
    ParseLine decimalLib afterTriangle (' ' :: ' ' :: "v 1 2 3".toList) =
      (Outcome.returned Status.kErrorIncorrectFile, ClearData afterTriangle) ∧
    (ParseLine decimalLib afterTriangle (' ' :: 'v' :: " 1 2 3".toList)).1 =
      Outcome.returned Status.kOk :=
  ⟨extractDecimal_at_v, by decide, by decide,
    ((ParseLine_leading_whitespace decimalLib afterTriangle extractDecimal_at_v).1 ' ' ' '
      "v 1 2 3".toList (by decide) (by decide) (by decide)).2,
    ((ParseLine_leading_whitespace decimalLib afterTriangle extractDecimal_at_v).2.2 ' '
      " 1 2 3".toList 1 2 3 (by decide) (by decide) (by decide)).1⟩

end s21
